import Mathlib

/-
Verification development for the quiz-document normalization engine of this
repository (src/app.py).  The Python source is shallowly embedded: strings are
Lean `String`s (processed as `List Char`), the regex-driven line classification
is hand-compiled into character-level functions, and fallible operations return
`Option`.  Regex fragments are compiled to equivalent deterministic scanners;
each definition cites the source lines it embeds.

Modeling notes that apply throughout:
* Python's `\s` class and `str.strip()` whitespace are modeled over ASCII
  whitespace (space, tab, newline, carriage return, vertical tab, form feed).
  The inputs manipulated here are ASCII, where the behaviours agree.
* Python's `str.lower()` is modeled as ASCII lowercasing, which agrees with
  CPython on ASCII input.
-/

set_option autoImplicit false

namespace QuizApp

/-- Question is the canonical record built by every parsing path
(src/app.py lines 34-46, 144-163, 179-198).  All fields are strings,
exactly as in the Python dict literal. -/
structure Question where
  question : String
  option_1 : String
  option_2 : String
  option_3 : String
  option_4 : String
  option_5 : String
  answer : String
  solution_text : String
  question_image : String
  option_image_1 : String
  option_image_2 : String
  option_image_3 : String
  option_image_4 : String
  option_image_5 : String
  solution_image : String
  correct_score : String
  negative_score : String
  «section» : String
deriving DecidableEq, Repr

/-- Question dict as initialized by `parse_txt_file` (src/app.py lines 34-46):
all text fields empty, `correct_score = "3"`, `negative_score = "1"`. -/
def initTxtQuestion : Question :=
  { question := "", option_1 := "", option_2 := "", option_3 := "",
    option_4 := "", option_5 := "", answer := "", solution_text := "",
    question_image := "", option_image_1 := "", option_image_2 := "",
    option_image_3 := "", option_image_4 := "", option_image_5 := "",
    solution_image := "", correct_score := "3", negative_score := "1",
    «section» := "" }

/-! Character classes and basic string utilities -/

/-- Python regex `\s` / `str.strip()` whitespace, ASCII fragment. -/
def isPySpace (c : Char) : Bool :=
  c = ' ' || c = '\t' || c = '\n' || c = '\r' || c = '\x0b' || c = '\x0c'

/-- ASCII decimal digit, Python regex `\d` (ASCII fragment). -/
def isDigitCh (c : Char) : Bool :=
  '0' ≤ c && c ≤ '9'

/-- Python regex `[A-Z]`. -/
def isUpperAZ (c : Char) : Bool :=
  'A' ≤ c && c ≤ 'Z'

/-- ASCII lowercasing of one character (CPython `str.lower()` on ASCII). -/
def lowerCh (c : Char) : Char :=
  if 'A' ≤ c && c ≤ 'Z' then Char.ofNat (c.toNat + 32) else c

/-- Python regex `[a-e]` with `re.IGNORECASE`. -/
def isAE (c : Char) : Bool :=
  let l := lowerCh c
  'a' ≤ l && l ≤ 'e'

/-- Drop trailing characters satisfying `p` (helper for `str.strip()`). -/
def dropRightWhileCh (p : Char → Bool) (l : List Char) : List Char :=
  (l.reverse.dropWhile p).reverse

/-- Python `str.strip()` on a character list: remove leading and trailing
whitespace. -/
def pyStripL (l : List Char) : List Char :=
  dropRightWhileCh isPySpace (l.dropWhile isPySpace)

/-- Python `str.strip()`. -/
def pyStrip (s : String) : String :=
  ⟨pyStripL s.data⟩

/-- Python `str.lower()` (ASCII model). -/
def pyLower (s : String) : String :=
  ⟨s.data.map lowerCh⟩

/-- Python `str.split('\n')` on a character list. -/
def splitNl : List Char → List (List Char)
  | [] => [[]]
  | c :: r =>
    if c = '\n' then [] :: splitNl r
    else
      match splitNl r with
      | h :: t => (c :: h) :: t
      | [] => [[c]]

/-- Python `str.split('\n')`. -/
def pySplitLines (s : String) : List String :=
  (splitNl s.data).map fun l => ⟨l⟩

/-- Case-insensitive literal prefix test: Python `re.match(pat, s, re.IGNORECASE)`
for a pattern `pat` that is a plain (already lowercase) literal. -/
def startsWithCI : List Char → List Char → Bool
  | [], _ => true
  | _ :: _, [] => false
  | p :: ps, c :: cs => p = lowerCh c && startsWithCI ps cs

/-- String-level wrapper for `startsWithCI`. -/
def startsCI (pat s : String) : Bool :=
  startsWithCI pat.data s.data

/-- Drop a case-insensitive literal prefix, returning the remainder on match. -/
def dropCI : List Char → List Char → Option (List Char)
  | [], cs => some cs
  | _ :: _, [] => none
  | p :: ps, c :: cs => if p = lowerCh c then dropCI ps cs else none

/-! Line classification of (the regexes of `parse_txt_file`)

The option-marker regex appears in three syntactic variants in the source
(src/app.py lines 59, 66, 74, 87): `^[a-e]\)\s*|^\([a-e]\)\s*|^[a-e]\.\s*`,
`^([a-e])[\)\.]\s*|^\(([a-e])\)\s*` and `^[a-e]\)|^\([a-e]\)|^[a-e]\.`, all
with `re.IGNORECASE`.  The trailing `\s*` never affects whether a match
exists, so all three denote the same predicate on a line. -/

/-- Option-marker test: the line starts with `a)`, `a.` or `(a)` for a letter
a-e, case-insensitively (src/app.py lines 59, 66, 74, 87). -/
def isOptMarker (s : String) : Bool :=
  match s.data with
  | c1 :: c2 :: rest =>
    (isAE c1 && (c2 = ')' || c2 = '.')) ||
    (c1 = '(' && isAE c2 && (match rest with
      | c3 :: _ => c3 = ')'
      | [] => false))
  | _ => false

/-- Answer/explanation stop test used in the option-loop condition
(src/app.py line 78): `re.match(r'^Correct|^Answer:|^ex:', line, re.IGNORECASE)`. -/
def isStop (s : String) : Bool :=
  startsCI "correct" s || startsCI "answer:" s || startsCI "ex:" s

/-- Continuation-line stop test (src/app.py line 87):
`^[a-e]\)|^\([a-e]\)|^[a-e]\.|^Correct|^Answer:|^ex:` with `re.IGNORECASE`. -/
def isContStop (s : String) : Bool :=
  isOptMarker s || isStop s

/-- Header test (src/app.py line 51): `re.match(r'^(?:\d+\.\s*|Q\.\d+\s+)', line)`
(case-sensitive).  First alternative: one or more digits, a dot, any
whitespace; second: literal `Q.`, one or more digits, at least one
whitespace character. -/
def isHeaderLine (s : String) : Bool :=
  (let ds := s.data.takeWhile isDigitCh
   ds ≠ [] && (match s.data.drop ds.length with
     | '.' :: _ => true
     | _ => false)) ||
  (match s.data with
   | 'Q' :: '.' :: rest =>
     let ds := rest.takeWhile isDigitCh
     ds ≠ [] && (match rest.drop ds.length with
       | w :: _ => isPySpace w
       | [] => false)
   | _ => false)

/-- Second header alternative `Q.\d+\s+` of the header-stripping substitution
(src/app.py line 53): strips the prefix when it matches, else returns the
line unchanged. -/
def stripHeaderQ (s : String) : String :=
  match s.data with
  | 'Q' :: '.' :: rest =>
    let ds := rest.takeWhile isDigitCh
    if ds ≠ [] then
      let r2 := rest.drop ds.length
      match r2 with
      | w :: _ => if isPySpace w then ⟨r2.dropWhile isPySpace⟩ else s
      | [] => s
    else s
  | _ => s

/-- Strip the numbering header (src/app.py line 53):
`re.sub(r'^(?:\d+\.\s*|Q\.\d+\s+)', '', line)`.  The regex is anchored, so at
most one occurrence (the prefix) is removed; greedy `\d+` takes the maximal
digit run and `\s*`/`\s+` the maximal whitespace run, as in the regex.  The
first alternative is tried first, as in the regex alternation. -/
def stripHeader (s : String) : String :=
  let ds := s.data.takeWhile isDigitCh
  if ds ≠ [] then
    match s.data.drop ds.length with
    | '.' :: rest => ⟨rest.dropWhile isPySpace⟩
    | _ => stripHeaderQ s
  else stripHeaderQ s

/-! Option extraction loop, answer scan and explanation scan of
`parse_txt_file` (src/app.py lines 72-123). -/

/-- Option extraction loop (src/app.py lines 72-95).  `avail` is the number of
option slots still free (`5 - option_count`).  Returns the option texts in
fill order together with the unconsumed lines.  In the source the texts are
assigned to `option_(count+1)` with `count` incremented by one per fill, so
the fills form exactly this list in order. -/
def optionsLoop : List String → Nat → List String × List String
  | [], _ => ([], [])
  | l :: ls, 0 => ([], l :: ls)
  | [l], _ + 1 =>
    if isOptMarker l then ([l], [])
    else if isStop l then ([], [l])
    else ([], [])
  | l :: l2 :: ls2, a + 1 =>
    if isOptMarker l then
      if isContStop l2 then
        let r := optionsLoop (l2 :: ls2) a
        (l :: r.1, r.2)
      else
        let r := optionsLoop ls2 a
        ((l ++ "<br>" ++ l2) :: r.1, r.2)
    else if isStop l then ([], l :: l2 :: ls2)
    else optionsLoop (l2 :: ls2) (a + 1)

/-- Answer-line head test (src/app.py line 101):
`re.match(r'^Correct\s*(?:option)?\s*[:-]', line, re.IGNORECASE)`.  With
backtracking, the pattern accepts: `Correct`, any whitespace, then either a
separator directly or the literal `option` followed by any whitespace and a
separator. -/
def matchCorrectHead (s : String) : Bool :=
  match dropCI "correct".data s.data with
  | none => false
  | some r =>
    let r1 := r.dropWhile isPySpace
    (match r1 with
     | c :: _ => c = ':' || c = '-'
     | [] => false) ||
    (match dropCI "option".data r1 with
     | some r2 =>
       match r2.dropWhile isPySpace with
       | c :: _ => c = ':' || c = '-'
       | [] => false
     | none => false)

/-- Answer-line head test (src/app.py line 107):
`re.match(r'^Answer\s*[:-]', line, re.IGNORECASE)`. -/
def matchAnswerHead (s : String) : Bool :=
  match dropCI "answer".data s.data with
  | none => false
  | some r =>
    match r.dropWhile isPySpace with
    | c :: _ => c = ':' || c = '-'
    | [] => false

/-- Letter search (src/app.py lines 102, 110):
`re.search(r'[:-]\s*([a-e])', line, re.IGNORECASE)`.  Finds the leftmost
separator followed (after any whitespace) by a letter a-e; the captured
letter is lowercased as by `match.group(1).lower()`. -/
def searchColonLetter : List Char → Option Char
  | [] => none
  | c :: rest =>
    if c = ':' || c = '-' then
      match rest.dropWhile isPySpace with
      | d :: _ => if isAE d then some (lowerCh d) else searchColonLetter rest
      | [] => searchColonLetter rest
    else searchColonLetter rest

/-- Parenthesized letter search (src/app.py line 108):
`re.search(r'\(([a-e])\)', line, re.IGNORECASE)`, captured letter lowercased. -/
def searchParenLetter : List Char → Option Char
  | [] => none
  | c :: rest =>
    if c = '(' then
      match rest with
      | d :: ')' :: _ => if isAE d then some (lowerCh d) else searchParenLetter rest
      | _ => searchParenLetter rest
    else searchParenLetter rest

/-- Answer Letter Mapper (src/app.py lines 105, 113):
`{'a': '1', 'b': '2', 'c': '3', 'd': '4', 'e': '5'}.get(ans, '1')` applied to
the lowercased captured letter. -/
def answerMapGet (c : Char) : String :=
  match c with
  | 'a' => "1"
  | 'b' => "2"
  | 'c' => "3"
  | 'd' => "4"
  | 'e' => "5"
  | _ => "1"

/-- Effect of one scanned line on the stored answer (src/app.py lines 98-115):
`some v` when the line matches an answer dialect and captures a letter (the
answer becomes `v`), `none` when the line leaves the answer unchanged. -/
def lineAnswerUpdate (l : String) : Option String :=
  if matchCorrectHead l then
    (searchColonLetter l.data).map answerMapGet
  else if matchAnswerHead l then
    ((searchParenLetter l.data).orElse fun _ => searchColonLetter l.data).map answerMapGet
  else none

/-- Answer scan (src/app.py lines 98-115): every remaining line is examined in
order and each capturing line overwrites the answer. -/
def scanAnswer (ls : List String) (init : String) : String :=
  ls.foldl (fun a l => (lineAnswerUpdate l).getD a) init

/-- Explanation prefix removal (src/app.py line 121):
`re.sub(r'^ex:\s*', '', line, flags=re.IGNORECASE)`; only applied to lines
that match `^ex:`. -/
def stripExMark (s : String) : String :=
  ⟨(s.data.drop 3).dropWhile isPySpace⟩

/-- Line-break join used for multi-line rich-text fields
(src/app.py lines 70, 123): `'<br>'.join(...)`. -/
def joinBr : List String → String
  | [] => ""
  | [x] => x
  | x :: xs => x ++ "<br>" ++ joinBr xs

/-- Newline join (src/app.py line 256): `"\n".join(lines)`. -/
def joinNl : List String → String
  | [] => ""
  | [x] => x
  | x :: xs => x ++ "\n" ++ joinNl xs

/-- Non-blank stripped lines of a block (src/app.py line 30):
`[line.strip() for line in block.split('\n') if line.strip()]`. -/
def blockLines (b : String) : List String :=
  (pySplitLines b).filterMap fun l =>
    let t := pyStrip l
    if t = "" then none else some t

/-- Character-list form of `blockLines`. -/
def blockLinesL (cs : List Char) : List String :=
  (splitNl cs).filterMap fun x =>
    if pyStripL x = [] then none else some ⟨pyStripL x⟩

/-- Question-text accumulation of one block (src/app.py lines 48-70): with a
numbering header the stripped remainder starts the question and subsequent
non-option lines continue it; without one the same continuation loop runs
from the first line.  Returns the question lines and the unconsumed lines. -/
def questionSplit (lines : List String) : List String × List String :=
  match lines with
  | [] => ([], [])
  | l0 :: rest =>
    if isHeaderLine l0 then
      let sp := rest.span fun l => !isOptMarker l
      (stripHeader l0 :: sp.1, sp.2)
    else lines.span fun l => !isOptMarker l

/-- Question record built from one block's non-blank lines
(src/app.py lines 34-123): question accumulation, option loop, answer scan
over the remaining lines, and the independent explanation scan over the
whole block. -/
def buildBlockQuestion (lines : List String) : Question :=
  let hpart := questionSplit lines
  let ol := optionsLoop hpart.2 5
  { initTxtQuestion with
    question := joinBr hpart.1,
    option_1 := ol.1.getD 0 "", option_2 := ol.1.getD 1 "",
    option_3 := ol.1.getD 2 "", option_4 := ol.1.getD 3 "",
    option_5 := ol.1.getD 4 "",
    answer := scanAnswer ol.2 "",
    solution_text :=
      joinBr ((lines.filter fun l => startsCI "ex:" l).map stripExMark) }

/-- Per-block body of the `for block in blocks` loop of `parse_txt_file`
(src/app.py lines 25-127): returns the retained Question or `none` when the
block is skipped (empty after stripping, fewer than 3 non-blank lines, or
failing the final retention check of line 126). -/
def parse_block (block : String) : Option Question :=
  let b := pyStrip block
  if b = "" then none
  else
    let lines := blockLines b
    if lines.length < 3 then none
    else
      let q := buildBlockQuestion lines
      if q.question ≠ "" ∧ (q.option_1 ≠ "" ∨ q.option_2 ≠ "") then some q
      else none

/-! Block Segmenter (src/app.py line 23):
`re.split(r'\n\s*\n|(?=Q\.\d+|\d+\.\s*[A-Z])', content.strip())`. -/

/-- Index of the last newline in a character list, if any. -/
def lastNlIdx (l : List Char) : Option Nat :=
  match l.reverse.findIdx? (fun c => c = '\n') with
  | some j => some (l.length - 1 - j)
  | none => none

/-- Match of the first split alternative `\n\s*\n` at the head of `l`:
returns the number of characters consumed.  Greedy `\s*` with backtracking
makes the match end at the last newline of the whitespace run that follows
the first newline. -/
def matchBlankSep (l : List Char) : Option Nat :=
  match l with
  | '\n' :: rest =>
    let ws := rest.takeWhile isPySpace
    (lastNlIdx ws).map fun k => k + 2
  | _ => none

/-- Zero-width lookahead `(?=Q\.\d+|\d+\.\s*[A-Z])` test at the head of `l`
(case-sensitive, `\s*` may span newlines since the outer split uses no
flags other than the default). -/
def lookaheadSplit (l : List Char) : Bool :=
  (match l with
   | 'Q' :: '.' :: d :: _ => isDigitCh d
   | _ => false) ||
  (let ds := l.takeWhile isDigitCh
   ds ≠ [] && (match l.drop ds.length with
     | '.' :: rest2 =>
       (match rest2.dropWhile isPySpace with
        | u :: _ => isUpperAZ u
        | [] => false)
     | _ => false))

/-- Scanner implementing `re.split` for the segmentation pattern, following
the CPython semantics: pieces are the texts between successive leftmost
matches; a zero-width (lookahead) match splits and scanning resumes one
character later.  `acc` holds the current piece reversed; `fuel` bounds the
recursion (every step consumes at least one character). -/
def segGo : Nat → List Char → List Char → List (List Char)
  | 0, acc, rem => [acc.reverse ++ rem]
  | _ + 1, acc, [] => [acc.reverse]
  | f + 1, acc, c :: rest =>
    match matchBlankSep (c :: rest) with
    | some k => acc.reverse :: segGo f [] ((c :: rest).drop k)
    | none =>
      if lookaheadSplit (c :: rest) then acc.reverse :: segGo f [c] rest
      else segGo f (c :: acc) rest

/-- Block Segmenter (src/app.py line 23): split the already-stripped content
by blank-line runs or at new-question lookahead positions. -/
def pySplitQ (s : String) : List String :=
  (segGo (s.data.length + 1) [] s.data).map fun l => ⟨l⟩

/-- Plain-text parser (src/app.py lines 18-129): segment the stripped content
into blocks and collect the Question retained from each block. -/
def parse_txt_file (content : String) : List Question :=
  (pySplitQ (pyStrip content)).filterMap parse_block

/-! Markup Stripper and Text Serializer (src/app.py lines 211-256). -/

/-- Tag removal scanner (src/app.py line 215): `re.sub(r'<[^>]+>', ' ', text)`.
At a `<`, the non-greedy-irrelevant class `[^>]+` runs to the first later `>`
provided at least one character lies between; a matched span is replaced by
one space, otherwise the `<` is kept and scanning continues. -/
def removeTags : Nat → List Char → List Char
  | 0, l => l
  | _ + 1, [] => []
  | f + 1, c :: rest =>
    if c = '<' then
      match rest.findIdx? (fun d => d = '>') with
      | some j =>
        if j ≥ 1 then ' ' :: removeTags f (rest.drop (j + 1))
        else c :: removeTags f rest
      | none => c :: removeTags f rest
    else c :: removeTags f rest

/-- Parse a decimal number from leading digits. -/
def digitsToNat (l : List Char) : Nat :=
  l.foldl (fun n c => n * 10 + (c.toNat - '0'.toNat)) 0

/-- Hexadecimal digit value (codepoints: digits 48-57, a-f 97-102, A-F
65-70). -/
def hexVal (c : Char) : Option Nat :=
  let n := c.toNat
  if isDigitCh c then some (n - 48)
  else if 97 ≤ n && n ≤ 102 then some (n - 87)
  else if 65 ≤ n && n ≤ 70 then some (n - 55)
  else none

/-- Entity unescaping (src/app.py line 216: `html.unescape`).  Modeled for the
basic named entities and semicolon-terminated numeric references; CPython's
table covers many more named entities (and some semicolon-less forms), but no
input handled in this development contains any entity, where the behaviours
agree. -/
def unescapeEnt : Nat → List Char → List Char
  | 0, l => l
  | _ + 1, [] => []
  | f + 1, c :: rest =>
    if c = '&' then
      match dropCI "amp;".data rest with
      | some r => '&' :: unescapeEnt f r
      | none =>
      match dropCI "lt;".data rest with
      | some r => '<' :: unescapeEnt f r
      | none =>
      match dropCI "gt;".data rest with
      | some r => '>' :: unescapeEnt f r
      | none =>
      match dropCI "quot;".data rest with
      | some r => '"' :: unescapeEnt f r
      | none =>
      match dropCI "apos;".data rest with
      | some r => '\'' :: unescapeEnt f r
      | none =>
      match rest with
      | '#' :: 'x' :: r2 =>
        let hs := r2.takeWhile fun d => (hexVal d).isSome
        (match r2.drop hs.length, hs with
         | ';' :: r3, _ :: _ =>
           Char.ofNat (hs.foldl (fun n d => n * 16 + (hexVal d).getD 0) 0) ::
             unescapeEnt f r3
         | _, _ => c :: unescapeEnt f rest)
      | '#' :: r2 =>
        let ds := r2.takeWhile isDigitCh
        (match r2.drop ds.length, ds with
         | ';' :: r3, _ :: _ => Char.ofNat (digitsToNat ds) :: unescapeEnt f r3
         | _, _ => c :: unescapeEnt f rest)
      | _ => c :: unescapeEnt f rest
    else c :: unescapeEnt f rest

/-- Whitespace collapsing (src/app.py line 217): `re.sub(r'\s+', ' ', text)`.
Fuel-based recursion (every step consumes at least one character). -/
def collapseWs : Nat → List Char → List Char
  | 0, l => l
  | _ + 1, [] => []
  | f + 1, c :: rest =>
    if isPySpace c then ' ' :: collapseWs f (rest.dropWhile isPySpace)
    else c :: collapseWs f rest

/-- Markup Stripper (src/app.py lines 211-218): remove HTML tags, unescape
entities, collapse whitespace runs to single spaces and strip. -/
def strip_html (text : String) : String :=
  if text = "" then ""
  else
    let t1 := removeTags (text.data.length + 1) text.data
    let t2 := unescapeEnt (t1.length + 1) t1
    pyStrip ⟨collapseWs (t2.length + 1) t2⟩

/-- CPython `int(str)` over ASCII input: optional surrounding whitespace, an
optional sign, then decimal digits possibly separated by single underscores
(an underscore must sit between two digits).  Returns `none` where Python
raises `ValueError`.  (CPython additionally accepts some non-ASCII digits
and whitespace, which never occur here.) -/
def pyIntDigits : List Char → Bool
  | [] => false
  | [c] => isDigitCh c
  | c :: '_' :: rest =>
    isDigitCh c && (match rest with
      | d :: _ => isDigitCh d && pyIntDigits rest
      | [] => false)
  | c :: rest => isDigitCh c && pyIntDigits rest

/-- Numeric value of a digit-and-underscore list. -/
def pyIntVal (l : List Char) : Nat :=
  digitsToNat (l.filter isDigitCh)

/-- CPython `int(s)`: `some n` when the conversion succeeds, `none` when it
raises `ValueError`. -/
def pyInt (s : String) : Option Int :=
  let cs := pyStripL s.data
  match cs with
  | '+' :: rest => if pyIntDigits rest then some (pyIntVal rest) else none
  | '-' :: rest => if pyIntDigits rest then some (-(pyIntVal rest : Int)) else none
  | _ => if pyIntDigits cs then some (pyIntVal cs) else none

/-- Answer letter rendering of the serializer (src/app.py lines 237-244):

    try:
        ans_int = int(ans)
        ans_letter = chr(96 + ans_int)
    except ValueError:
        ans_letter = ans  # fallback, e.g. if answer already a letter

The `except ValueError` also catches `chr` raising on a code point outside
`[0, 0x10FFFF]`, so those values fall back to the stored string as well.
(For a code point in the surrogate range CPython builds a lone-surrogate
string; `Char.ofNat` maps it to NUL instead — no answer value exercised here
lands in that range.) -/
def renderAnswerLetter (ans : String) : String :=
  match pyInt ans with
  | some n =>
    if 0 ≤ 96 + n ∧ 96 + n ≤ 0x10FFFF then ⟨[Char.ofNat (96 + n).toNat]⟩
    else ans
  | none => ans

/-- Option-slot letter of the serializer (src/app.py line 233):
`chr(96 + opt_num)`. -/
def slotLetter (k : Nat) : String :=
  ⟨[Char.ofNat (96 + k)]⟩

/-- Option lines of the serializer (src/app.py lines 229-234): one line
`"<letter>) <stripped text>"` per non-empty slot, the letter chosen by slot
position. -/
def renderOptLines (q : Question) : List String :=
  [(1, q.option_1), (2, q.option_2), (3, q.option_3),
   (4, q.option_4), (5, q.option_5)].filterMap fun p =>
    if p.2 ≠ "" then some (slotLetter p.1 ++ ") " ++ strip_html p.2) else none

/-- Lines the serializer emits for one question, excluding the blank
separator line (src/app.py lines 224-251); `idx` is the 1-based position. -/
def renderQLines (idx : Nat) (q : Question) : List String :=
  (toString idx ++ ". " ++ strip_html q.question) ::
  renderOptLines q ++
  (if q.answer ≠ "" then
     ["Correct option:-" ++ renderAnswerLetter q.answer]
   else []) ++
  [if strip_html q.solution_text ≠ "" then "ex: " ++ strip_html q.solution_text
   else "ex: No explanation provided."]

/-- Text Serializer (src/app.py lines 220-256): emit the lines of every
question followed by a blank line, joined with newlines. -/
def questions_to_txt (qs : List Question) : String :=
  joinNl
    ((qs.enum.map fun p => renderQLines (p.1 + 1) p.2 ++ [""]).foldr
      (fun a r => a ++ r) [])

/-! Embedded-data extraction (src/app.py lines 135-205): a JSON value model,
a strict JSON parser standing for `json.loads`, and the two grammars. -/

/-- JSON values as decoded by `json.loads`.  Numbers with a fraction or
exponent part (and the non-standard `NaN`/`Infinity` literals CPython
accepts) are kept as their source literal in `fnum`; they are never
exercised by the properties proved here. -/
inductive Json where
  | null
  | bool (b : Bool)
  | int (n : Int)
  | fnum (lit : String)
  | str (s : String)
  | arr (xs : List Json)
  | obj (kvs : List (String × Json))

/-- Lookup in a decoded JSON object.  `json.loads` builds a Python dict, so a
duplicated key keeps its last value; the lookup therefore scans from the
right. -/
def jGet (kvs : List (String × Json)) (k : String) : Option Json :=
  (kvs.reverse.find? fun p => p.1 = k).map fun p => p.2

/-- JSON whitespace skip (space, tab, newline, carriage return). -/
def skipJWs (l : List Char) : List Char :=
  l.dropWhile fun c => c = ' ' || c = '\t' || c = '\n' || c = '\r'

/-- String-body parser for JSON strings: consumes up to the closing quote.
Escapes follow the JSON grammar; an unescaped control character is rejected
as by the strict default of `json.loads`.  A `\u` escape is decoded with
`Char.ofNat` (CPython would pair surrogates; no input here contains them). -/
def parseJStrBody : Nat → List Char → Option (List Char × List Char)
  | 0, _ => none
  | _ + 1, [] => none
  | f + 1, c :: rest =>
    if c = '"' then some ([], rest)
    else if c = '\\' then
      match rest with
      | '"' :: r => (parseJStrBody f r).map fun p => ('"' :: p.1, p.2)
      | '\\' :: r => (parseJStrBody f r).map fun p => ('\\' :: p.1, p.2)
      | '/' :: r => (parseJStrBody f r).map fun p => ('/' :: p.1, p.2)
      | 'b' :: r => (parseJStrBody f r).map fun p => ('\x08' :: p.1, p.2)
      | 'f' :: r => (parseJStrBody f r).map fun p => ('\x0c' :: p.1, p.2)
      | 'n' :: r => (parseJStrBody f r).map fun p => ('\n' :: p.1, p.2)
      | 'r' :: r => (parseJStrBody f r).map fun p => ('\r' :: p.1, p.2)
      | 't' :: r => (parseJStrBody f r).map fun p => ('\t' :: p.1, p.2)
      | 'u' :: h1 :: h2 :: h3 :: h4 :: r =>
        match hexVal h1, hexVal h2, hexVal h3, hexVal h4 with
        | some v1, some v2, some v3, some v4 =>
          (parseJStrBody f r).map fun p =>
            (Char.ofNat (((v1 * 16 + v2) * 16 + v3) * 16 + v4) :: p.1, p.2)
        | _, _, _, _ => none
      | _ => none
    else if c.toNat < 0x20 then none
    else (parseJStrBody f rest).map fun p => (c :: p.1, p.2)

/-- Number parser following the JSON grammar
`-?(0|[1-9][0-9]*)(\.[0-9]+)?([eE][+-]?[0-9]+)?`; an integer literal becomes
`Json.int`, otherwise the consumed literal is kept as `Json.fnum`. -/
def parseJNum (l : List Char) : Option (Json × List Char) :=
  let sign : Bool × List Char :=
    match l with
    | '-' :: r => (true, r)
    | _ => (false, l)
  let ds := sign.2.takeWhile isDigitCh
  match ds with
  | [] => none
  | '0' :: _ :: _ => none
  | _ =>
    let afterInt := sign.2.drop ds.length
    let fracLen : Nat :=
      match afterInt with
      | '.' :: r =>
        let fs := r.takeWhile isDigitCh
        if fs = [] then 0 else fs.length + 1
      | _ => 0
    if fracLen = 0 && (match afterInt with | '.' :: _ => true | _ => false) then
      none
    else
      let afterFrac := afterInt.drop fracLen
      let expLen : Option Nat :=
        match afterFrac with
        | e :: r =>
          if e = 'e' || e = 'E' then
            let r2 := match r with
              | s :: r2 => if s = '+' || s = '-' then r2 else r
              | [] => r
            let signLen := r.length - r2.length
            let es := r2.takeWhile isDigitCh
            if es = [] then none else some (1 + signLen + es.length)
          else some 0
        | [] => some 0
      match expLen with
      | none => none
      | some el =>
        let total := (if sign.1 then 1 else 0) + ds.length + fracLen + el
        let rest := l.drop total
        if fracLen = 0 ∧ el = 0 then
          let v : Int := digitsToNat ds
          some (.int (if sign.1 then -v else v), rest)
        else some (.fnum ⟨l.take total⟩, rest)

mutual

/-- Value parser standing for the recursive descent of `json.loads`.  The
fuel decreases on every recursive call; `jsonParse` supplies enough for any
input.  CPython's non-standard `NaN`/`Infinity` acceptance is included. -/
def parseJVal : Nat → List Char → Option (Json × List Char)
  | 0, _ => none
  | f + 1, cs =>
    match skipJWs cs with
    | 'n' :: 'u' :: 'l' :: 'l' :: r => some (.null, r)
    | 't' :: 'r' :: 'u' :: 'e' :: r => some (.bool true, r)
    | 'f' :: 'a' :: 'l' :: 's' :: 'e' :: r => some (.bool false, r)
    | 'N' :: 'a' :: 'N' :: r => some (.fnum "NaN", r)
    | 'I' :: 'n' :: 'f' :: 'i' :: 'n' :: 'i' :: 't' :: 'y' :: r =>
      some (.fnum "Infinity", r)
    | '-' :: 'I' :: 'n' :: 'f' :: 'i' :: 'n' :: 'i' :: 't' :: 'y' :: r =>
      some (.fnum "-Infinity", r)
    | '"' :: r => (parseJStrBody r.length r).map fun p => (.str ⟨p.1⟩, p.2)
    | '[' :: r =>
      (match skipJWs r with
       | ']' :: r2 => some (.arr [], r2)
       | _ => (parseJItems f r).map fun p => (.arr p.1, p.2))
    | c :: r =>
      if c = Char.ofNat 123 then
        match skipJWs r with
        | c2 :: r2 =>
          if c2 = Char.ofNat 125 then some (.obj [], r2)
          else (parseJFields f (c2 :: r2)).map fun p => (.obj p.1, p.2)
        | [] => none
      else parseJNum (c :: r)
    | [] => none

/-- Array items: a value, then a comma and more items or the closing
bracket. -/
def parseJItems : Nat → List Char → Option (List Json × List Char)
  | 0, _ => none
  | f + 1, cs =>
    match parseJVal f cs with
    | none => none
    | some (v, rest) =>
      match skipJWs rest with
      | ',' :: r2 => (parseJItems f r2).map fun p => (v :: p.1, p.2)
      | ']' :: r2 => some ([v], r2)
      | _ => none

/-- Object fields: a string key, a colon, a value, then a comma and more
fields or the closing brace. -/
def parseJFields : Nat → List Char → Option (List (String × Json) × List Char)
  | 0, _ => none
  | f + 1, cs =>
    match skipJWs cs with
    | '"' :: r =>
      match parseJStrBody r.length r with
      | none => none
      | some (k, r2) =>
        match skipJWs r2 with
        | ':' :: r3 =>
          match parseJVal f r3 with
          | none => none
          | some (v, r4) =>
            match skipJWs r4 with
            | ',' :: r5 => (parseJFields f r5).map fun p => ((⟨k⟩, v) :: p.1, p.2)
            | c :: r5 =>
              if c = Char.ofNat 125 then some ([(⟨k⟩, v)], r5) else none
            | [] => none
        | _ => none
    | _ => none

end

/-- CPython `json.loads`: parse one value surrounded by whitespace only;
`none` models a raised `JSONDecodeError`. -/
def jsonParse (s : String) : Option Json :=
  match parseJVal (s.data.length + 1) s.data with
  | some (v, rest) => if skipJWs rest = [] then some v else none
  | none => none

/-- Rendering of a decoded JSON value stored into a string field of the
internal record.  For a string value this is the value itself; for the
scalar values it is CPython's `str()` of the decoded object.  (For the
composite values Python keeps the live list/dict object in the record — the
rendering here is a stand-in that no property exercises.) -/
def pyJsonStr : Json → String
  | .str s => s
  | .int n => toString n
  | .bool b => if b then "True" else "False"
  | .null => "None"
  | .fnum lit => lit
  | .arr _ => "<list>"
  | .obj _ => "<dict>"

/-- Python `q.get(key, default)` followed by use as record text: the string
default when the key is absent, else the stored value rendered as text
(see `pyJsonStr` for the modeling of non-string values). -/
def getAsStr (kvs : List (String × Json)) (k dflt : String) : String :=
  match jGet kvs k with
  | some v => pyJsonStr v
  | none => dflt

/-- Python truthiness of a decoded JSON value (used by the
`q.get(...) or "2.00"` fallbacks, src/app.py lines 160-161). -/
def jFalsy : Json → Bool
  | .str s => s = ""
  | .int n => n = 0
  | .bool b => !b
  | .null => true
  | .fnum lit => lit = "0.0"
  | .arr xs => xs.isEmpty
  | .obj kvs => kvs.isEmpty

/-- Python `q.get(key, default) or default` (src/app.py lines 160-161):
a falsy stored value also falls back to the default. -/
def getOrDefault (kvs : List (String × Json)) (k dflt : String) : String :=
  match jGet kvs k with
  | some v => if jFalsy v then dflt else pyJsonStr v
  | none => dflt

/-- Mapping of one element of the array-form grammar (src/app.py
lines 143-164).  A non-object element makes `q.get` raise, which the
enclosing `try` turns into a fall-through; that is `none` here. -/
def mapQuestionElem : Json → Option Question
  | .obj kvs => some
    { question := getAsStr kvs "question" "",
      option_1 := getAsStr kvs "option_1" "",
      option_2 := getAsStr kvs "option_2" "",
      option_3 := getAsStr kvs "option_3" "",
      option_4 := getAsStr kvs "option_4" "",
      option_5 := getAsStr kvs "option_5" "",
      answer := pyJsonStr ((jGet kvs "answer").getD (.str "")),
      solution_text := getAsStr kvs "solution_text" "",
      question_image := getAsStr kvs "question_image" "",
      option_image_1 := getAsStr kvs "option_image_1" "",
      option_image_2 := getAsStr kvs "option_image_2" "",
      option_image_3 := getAsStr kvs "option_image_3" "",
      option_image_4 := getAsStr kvs "option_image_4" "",
      option_image_5 := getAsStr kvs "option_image_5" "",
      solution_image := getAsStr kvs "solution_image" "",
      correct_score := getOrDefault kvs "positive_marks" "2.00",
      negative_score := getOrDefault kvs "negative_marks" "0.50",
      «section» := "" }
  | _ => none

/-- Option list of a quizData element: `q.get("options", [])`
(src/app.py line 178).  A decoded list yields its elements; an absent key
the empty default.  (Other value shapes make the later `len`/indexing raise
or behave stringly in Python; they are modeled as a fall-through and are
not exercised here.) -/
def quizOptions (kvs : List (String × Json)) : Option (List Json) :=
  match jGet kvs "options" with
  | none => some []
  | some (.arr xs) => some xs
  | some _ => none

/-- Value of `q.get("correctIndex", 0) + 1` (src/app.py line 186): absent
defaults to zero, an integer adds one, a boolean is its Python numeric
value plus one; any other shape raises (`none`), which the enclosing `try`
catches.  (A decoded float would also add in Python; floats are not
exercised here.) -/
def quizCorrectIndexPlus1 (kvs : List (String × Json)) : Option Int :=
  match jGet kvs "correctIndex" with
  | none => some 1
  | some (.int n) => some (n + 1)
  | some (.bool b) => some ((if b then 1 else 0) + 1)
  | some _ => none

/-- Mapping of one element of the quizData grammar's `questions` array
(src/app.py lines 177-199). -/
def mapQuizElem : Json → Option Question
  | .obj kvs =>
    match quizOptions kvs with
    | none => none
    | some opts =>
      match quizCorrectIndexPlus1 kvs with
      | none => none
      | some ansN => some
        { question := getAsStr kvs "text" "",
          option_1 := match opts.get? 0 with | some v => pyJsonStr v | none => "",
          option_2 := match opts.get? 1 with | some v => pyJsonStr v | none => "",
          option_3 := match opts.get? 2 with | some v => pyJsonStr v | none => "",
          option_4 := match opts.get? 3 with | some v => pyJsonStr v | none => "",
          option_5 := match opts.get? 4 with | some v => pyJsonStr v | none => "",
          answer := toString ansN,
          solution_text := getAsStr kvs "explanation" "",
          question_image := "", option_image_1 := "", option_image_2 := "",
          option_image_3 := "", option_image_4 := "", option_image_5 := "",
          solution_image := "",
          correct_score := "1", negative_score := "0.25",
          «section» := "" }
  | _ => none

/-- Array-form grammar body: the decoded value must be the JSON array, every
element mapped field-for-field (src/app.py lines 141-165). -/
def mapGrammarA : Json → Option (List Question)
  | .arr xs => xs.mapM mapQuestionElem
  | _ => none

/-- Object-form grammar body: read `questions` (default empty list) from the
decoded object and map every element (src/app.py lines 174-200). -/
def mapGrammarB : Json → Option (List Question)
  | .obj kvs =>
    (match jGet kvs "questions" with
     | none => some []
     | some (.arr qs) => qs.mapM mapQuizElem
     | some _ => none)
  | _ => none

/-! Assignment-locating regexes of `parse_html_file` (src/app.py lines 138,
171): `const\s+<name>\s*=\s*(<open>.*?<close>);` with `re.DOTALL`. -/

/-- Case-sensitive literal drop (the assignment regexes carry no
`re.IGNORECASE`). -/
def dropLit : List Char → List Char → Option (List Char)
  | [], cs => some cs
  | _ :: _, [] => none
  | p :: ps, c :: cs => if p = c then dropLit ps cs else none

/-- Attempt to match `const\s+<name>\s*=\s*` followed by the opening bracket
at the head of `cs`; on success return the suffix starting at the opening
bracket. -/
def matchAssignAt (name : List Char) (openC : Char) (cs : List Char) :
    Option (List Char) :=
  match dropLit "const".data cs with
  | none => none
  | some r1 =>
    let r2 := r1.dropWhile isPySpace
    if r2.length = r1.length then none  -- \s+ requires at least one
    else
      match dropLit name r2 with
      | none => none
      | some r3 =>
        match r3.dropWhile isPySpace with
        | '=' :: r4 =>
          match r4.dropWhile isPySpace with
          | c :: r5 => if c = openC then some (c :: r5) else none
          | [] => none
        | _ => none

/-- Non-greedy group body: consume up to the first occurrence of `<close>`
followed by `;`, returning the group body including the closing bracket
(the regex group is `(<open>.*?<close>)` followed by `;`, under
`re.DOTALL`). -/
def takeGroupBody (closeC : Char) : List Char → List Char →
    Option (List Char)
  | _, [] => none
  | acc, c :: rest =>
    if c = closeC then
      match rest with
      | ';' :: _ => some (acc.reverse ++ [c])
      | _ => takeGroupBody closeC (c :: acc) rest
    else takeGroupBody closeC (c :: acc) rest

/-- Leftmost-search scanner for the assignment pattern: try every start
position in order; at the first prefix match take the non-greedy group. -/
def findAssign (name : List Char) (openC closeC : Char) :
    Nat → List Char → Option String
  | 0, _ => none
  | f + 1, cs =>
    match matchAssignAt name openC cs with
    | some (o :: body) =>
      (takeGroupBody closeC [] body).map fun g => ⟨o :: g⟩
    | some [] => none
    | none =>
      match cs with
      | [] => none
      | _ :: rest => findAssign name openC closeC f rest

/-- Locate `const questions = [ ... ];` (src/app.py line 138):
`re.search(r'const\s+questions\s*=\s*(\[.*?\]);', content, re.DOTALL)`,
returning capture group 1. -/
def findQuestionsArr (content : String) : Option String :=
  findAssign "questions".data '[' ']' (content.data.length + 1) content.data

/-- Locate `const quizData = { ... };` (src/app.py line 171):
`re.search(r'const\s+quizData\s*=\s*(\{.*?\});', content, re.DOTALL)`,
returning capture group 1. -/
def findQuizDataObj (content : String) : Option String :=
  findAssign "quizData".data (Char.ofNat 123) (Char.ofNat 125)
    (content.data.length + 1) content.data

/-- Second half of `parse_html_file` (src/app.py lines 170-205): the quizData
attempt followed by the empty-list fallback.  A `none` from decoding or
mapping models the caught exception. -/
def parseHtmlQuizPart (content : String) : List Question :=
  match findQuizDataObj content with
  | some grp =>
    match (jsonParse grp).bind mapGrammarB with
    | some r => r
    | none => []
  | none => []

/-- HTML parser (src/app.py lines 135-205), following the source control
flow: try the `const questions` array form; on regex failure or a caught
exception fall through to the `const quizData` attempt; if nothing matches
return the empty list. -/
def parse_html_file (content : String) : List Question :=
  match findQuestionsArr content with
  | some grp =>
    match (jsonParse grp).bind mapGrammarA with
    | some result => result
    | none => parseHtmlQuizPart content
  | none => parseHtmlQuizPart content

/-- Grammar A as one fallible extractor: locate the array assignment, decode
it, map the elements; `none` on any failure. -/
def grammarA (content : String) : Option (List Question) :=
  ((findQuestionsArr content).bind jsonParse).bind mapGrammarA

/-- Grammar B as one fallible extractor: locate the object assignment,
decode it, map the `questions` elements; `none` on any failure. -/
def grammarB (content : String) : Option (List Question) :=
  ((findQuizDataObj content).bind jsonParse).bind mapGrammarB

/-! Format Dispatcher (src/app.py lines 295-313, topic branch). -/

/-- Python `str.endswith(pat)`: suffix test. -/
def pyEndsWith (s pat : String) : Bool :=
  (dropLit pat.data.reverse s.data.reverse).isSome

/-- Dispatch of one uploaded file by extension (src/app.py lines 305-313):
the filename is lowercased, `.txt` goes to the plain-text parser,
`.html`/`.htm` to the embedded-data extractor (`endswith(('.html', '.htm'))`
succeeds when either suffix matches), anything else is the
unsupported-format error (HTTP 400 in the route).  The route's subsequent
empty-result check (line 315) sits above this dispatch and is not part of
it. -/
def dispatchTopicFile (filename content : String) : Except String (List Question) :=
  let fn := pyLower filename
  if pyEndsWith fn ".txt" then .ok (parse_txt_file content)
  else if pyEndsWith fn ".html" || pyEndsWith fn ".htm" then
    .ok (parse_html_file content)
  else .error "Unsupported file type. Please upload .txt or .html"

/-- Clean line: non-empty, no newline, no whitespace at either end.  Every
line the serializer emits is clean, which makes the block segmentation and
line-splitting of a re-parse recover it exactly. -/
def cleanLine (x : String) : Prop :=
  x ≠ "" ∧ (∀ c ∈ x.data, c ≠ '\n') ∧
  (∀ c, x.data.head? = some c → isPySpace c = false) ∧
  (∀ c, x.data.getLast? = some c → isPySpace c = false)

/-- Serialized block of one question: the lines the serializer emits for it,
without the trailing blank separator, joined by newlines. -/
def renderBlock (idx : Nat) (q : Question) : String :=
  joinNl (renderQLines idx q)

/-- Round-trip well-formedness of one parsed Question: non-empty stripped
question text, a non-empty first option slot, non-empty stripped text in
every used option slot, and an answer that is empty or "1".."5".  These are
the conditions under which one serialized block re-parses with the same
answer. -/
def wellFormedQ (q : Question) : Bool :=
  strip_html q.question ≠ "" && q.option_1 ≠ "" &&
  (q.option_1 = "" || strip_html q.option_1 ≠ "") &&
  (q.option_2 = "" || strip_html q.option_2 ≠ "") &&
  (q.option_3 = "" || strip_html q.option_3 ≠ "") &&
  (q.option_4 = "" || strip_html q.option_4 ≠ "") &&
  (q.option_5 = "" || strip_html q.option_5 ≠ "") &&
  (q.answer = "" || q.answer = "1" || q.answer = "2" || q.answer = "3" ||
    q.answer = "4" || q.answer = "5")

/-- Round-trip well-formedness of a parse result: every question is
well-formed and the serialized text re-segments into exactly one block per
question (the non-empty segments of the Block Segmenter on the serialized
text are the rendered blocks, in order). -/
def wellFormedRT (qs : List Question) : Bool :=
  qs.all wellFormedQ &&
  ((pySplitQ (pyStrip (questions_to_txt qs))).filter
      (fun b => !(pyStrip b = "")) ==
    qs.enum.map fun p => renderBlock (p.1 + 1) p.2)

/-- Record produced by the quizData element mapper on the claim C10 witness
input. -/
def c10mapped : Question :=
  { initTxtQuestion with
    question := "T", answer := "1", correct_score := "1",
    negative_score := "0.25" }

/-! Concrete inputs used by the claim theorems and witnesses. -/

/-- Example plain-text input from the specification (claim C1). -/
def c1input : String :=
  "1. What is 2+2?\na) 3\nb) 4\nCorrect option:-b\nex: Basic math"

/-- Round-trip example input (claim C2). -/
def c2input : String :=
  "1. What is two plus two?\na) 3\nb) 4\nCorrect option:-b\nex: basic"

/-- HTML input whose array-form grammar yields one all-empty element
(claim C3). -/
def c3htmlInput : String :=
  "const questions = [\x7b\x7d];"

/-- Plain-text block whose two answer-marker lines are both consumed before
the answer scan (claim C4). -/
def c4input : String :=
  "Foo\na) opt\nAnswer :- a\nAnswer :- b"

/-- Question whose stored answer is numeric for Python but not a plain digit
string (claim C5). -/
def c5question : Question :=
  { initTxtQuestion with question := "Two", option_1 := "x", answer := "+2" }

/-- Question with a digit answer, used by the claim C5 witness. -/
def c5witnessQ : Question :=
  { initTxtQuestion with question := "Q", option_1 := "x", answer := "3" }

/-- Stripped option texts of a question list: the markup-stripped contents of
the non-empty option slots, in order (the notion of option-text content the
round-trip property compares). -/
def strippedOptionTexts (qs : List Question) : List String :=
  qs.foldr
    (fun q r =>
      ([q.option_1, q.option_2, q.option_3, q.option_4, q.option_5].filterMap
        fun o => if o ≠ "" then some (strip_html o) else none) ++ r)
    []

/-! Claim C1. -/

/-- Claim C1 counterexample: on the specification's example input the parser
does not produce the claimed field values (the option texts keep their
`a)`/`b)` markers), and re-serialization does not reproduce the input. -/
theorem C1_counterexample :
    ¬ ((parse_txt_file c1input).map
        (fun q => (q.question, q.option_1, q.option_2, q.answer, q.solution_text)) =
          [("What is 2+2?", "3", "4", "2", "Basic math")] ∧
      questions_to_txt (parse_txt_file c1input) =
        "1. What is 2+2?\na) 3\nb) 4\nCorrect option:-b\nex: Basic math\n") := by
  decide

/-- Claim C1 as amended: parsing the example input yields exactly one
retained Question whose question is "What is 2+2?", whose options keep the
source option markers (`option_1 = "a) 3"`, `option_2 = "b) 4"`), with
answer "2" and solution text "Basic math"; re-serialization therefore
duplicates the markers. -/
theorem C1_amended :
    parse_txt_file c1input =
      [{ initTxtQuestion with
          question := "What is 2+2?", option_1 := "a) 3", option_2 := "b) 4",
          answer := "2", solution_text := "Basic math" }] ∧
    questions_to_txt (parse_txt_file c1input) =
      "1. What is 2+2?\na) a) 3\nb) b) 4\nCorrect option:-b\nex: Basic math\n" := by
  decide

/-! Claim C2, counterexample part (the amended round-trip theorem follows
later in the development). -/

/-- Claim C2 counterexample: re-parsing the serialized parse result of a
well-formed input does not reproduce the same set of stripped option texts —
the re-parsed options carry a duplicated marker ("a) a) 3"), which is not
among the original stripped option texts. -/
theorem C2_counterexample :
    strippedOptionTexts (parse_txt_file c2input) = ["a) 3", "b) 4"] ∧
    strippedOptionTexts (parse_txt_file (questions_to_txt (parse_txt_file c2input))) =
      ["a) a) 3", "b) b) 4"] ∧
    "a) a) 3" ∉ strippedOptionTexts (parse_txt_file c2input) ∧
    (parse_txt_file c2input).map Question.answer = ["2"] := by
  decide

/-! Claim C3, counterexample part. -/

/-- Claim C3 counterexample: the array-form embedded grammar retains a
Question with an empty `question` field and no non-empty option, so the
claimed invariant does not hold for every parsing path. -/
theorem C3_counterexample :
    (parse_html_file c3htmlInput).map
      (fun q => (q.question, q.option_1, q.option_2)) = [("", "", "")] := by
  decide

/-! Claim C4, counterexample part. -/

/-- Claim C4 counterexample: both `Answer :- a` and `Answer :- b` are
answer-marker lines that capture a letter, yet the block parses with an
empty answer — the option loop consumes the first as an option
continuation and skips the second as noise, so the answer scan never sees
either, and the later line does not win. -/
theorem C4_counterexample :
    lineAnswerUpdate "Answer :- a" = some "1" ∧
    lineAnswerUpdate "Answer :- b" = some "2" ∧
    (parse_txt_file c4input).map Question.answer = [""] := by
  decide

/-! Claim C5. -/

/-- Claim C5 counterexample: the stored answer "+2" is not a plain digit
string, yet the serializer does not pass it through unchanged — Python's
`int` accepts the sign, so the line `Correct option:-b` is emitted. -/
theorem C5_counterexample :
    ("+2".data.all isDigitCh) = false ∧
    questions_to_txt [c5question] ≠
      "1. Two\na) x\nCorrect option:-+2\nex: No explanation provided.\n" ∧
    questions_to_txt [c5question] =
      "1. Two\na) x\nCorrect option:-b\nex: No explanation provided.\n" := by
  decide

/-- Claim C5 as amended: for a non-empty stored answer the serializer emits
the line `Correct option:-` followed by the rendered letter, where the
rendering converts any value accepted by Python's `int` (optional
whitespace, optional sign, digits with underscores) with `chr(96 + n)` in
range, and passes the stored value through unchanged exactly when `int`
raises or `chr` is out of range. -/
theorem C5_amended :
    ∀ (idx : Nat) (q : Question), q.answer ≠ "" →
    ("Correct option:-" ++ renderAnswerLetter q.answer) ∈ renderQLines idx q ∧
    (pyInt q.answer = none → renderAnswerLetter q.answer = q.answer) ∧
    (∀ n : Int, pyInt q.answer = some n → (96 + n < 0 ∨ 1114111 < 96 + n) →
      renderAnswerLetter q.answer = q.answer) ∧
    (∀ n : Int, pyInt q.answer = some n → 0 ≤ 96 + n → 96 + n ≤ 1114111 →
      renderAnswerLetter q.answer = ⟨[Char.ofNat (96 + n).toNat]⟩) := by
  intro idx q h
  refine ⟨?_, ?_, ?_, ?_⟩
  · simp [renderQLines, h]
  · intro hn
    simp [renderAnswerLetter, hn]
  · intro n hn hrange
    have : ¬ (0 ≤ 96 + n ∧ 96 + n ≤ 1114111) := by omega
    simp [renderAnswerLetter, hn, this]
  · intro n hn h1 h2
    have : (0 ≤ 96 + n ∧ 96 + n ≤ 1114111) := ⟨h1, h2⟩
    simp [renderAnswerLetter, hn, this]

/-- Claim C5 witness: the amended statement applied to a concrete question
with answer "3". -/
theorem C5_amended_witness :
    c5witnessQ.answer ≠ "" ∧
    (("Correct option:-" ++ renderAnswerLetter c5witnessQ.answer) ∈
        renderQLines 1 c5witnessQ ∧
      (pyInt c5witnessQ.answer = none →
        renderAnswerLetter c5witnessQ.answer = c5witnessQ.answer) ∧
      (∀ n : Int, pyInt c5witnessQ.answer = some n →
        (96 + n < 0 ∨ 1114111 < 96 + n) →
        renderAnswerLetter c5witnessQ.answer = c5witnessQ.answer) ∧
      (∀ n : Int, pyInt c5witnessQ.answer = some n → 0 ≤ 96 + n →
        96 + n ≤ 1114111 →
        renderAnswerLetter c5witnessQ.answer = ⟨[Char.ofNat (96 + n).toNat]⟩)) :=
  ⟨by decide, C5_amended 1 c5witnessQ (by decide)⟩

/-! Claim C6. -/

/-- Claim C6: the HTML extractor is the ordered chain of the two fallible
grammars — the array form is tried first (a located assignment whose JSON
decodes and maps wins), a decode or mapping failure inside it falls through
to the object form, and when neither grammar succeeds the extractor returns
the empty list rather than an error. -/
theorem C6_extractor_chain :
    ∀ content : String,
      parse_html_file content =
        (match grammarA content with
         | some qs => qs
         | none =>
           match grammarB content with
           | some qs => qs
           | none => []) := by
  intro content
  simp only [parse_html_file, grammarA, grammarB, parseHtmlQuizPart]
  cases h1 : findQuestionsArr content with
  | none =>
    simp only [Option.none_bind]
    cases h2 : findQuizDataObj content with
    | none => rfl
    | some grp =>
      simp only [Option.some_bind]
  | some grp =>
    simp only [Option.some_bind]
    cases h2 : (jsonParse grp).bind mapGrammarA with
    | some r => rfl
    | none =>
      cases h3 : findQuizDataObj content with
      | none => rfl
      | some grp2 =>
        simp only [Option.some_bind]

/-! Claim C7. -/

/-- Claim C7: a file whose lowercased name ends in none of `.txt`, `.html`,
`.htm` is answered with the unsupported-format error, uniformly in the file
content — neither parser is invoked on it. -/
theorem C7_unsupported_dispatch :
    ∀ (filename content : String),
      pyEndsWith (pyLower filename) ".txt" = false →
      pyEndsWith (pyLower filename) ".html" = false →
      pyEndsWith (pyLower filename) ".htm" = false →
      dispatchTopicFile filename content =
        Except.error "Unsupported file type. Please upload .txt or .html" := by
  intro fn c h1 h2 h3
  simp [dispatchTopicFile, h1, h2, h3]

/-- Claim C7 witness: the dispatch of a `.pdf` upload. -/
theorem C7_unsupported_dispatch_witness :
    pyEndsWith (pyLower "Quiz.PDF") ".txt" = false ∧
    pyEndsWith (pyLower "Quiz.PDF") ".html" = false ∧
    pyEndsWith (pyLower "Quiz.PDF") ".htm" = false ∧
    dispatchTopicFile "Quiz.PDF" c1input =
      Except.error "Unsupported file type. Please upload .txt or .html" :=
  ⟨by decide, by decide, by decide,
    C7_unsupported_dispatch "Quiz.PDF" c1input (by decide) (by decide) (by decide)⟩

/-! Facts about decimal rendering (Nat.repr / Int.repr), used for numbering
lines and stringified answers. -/

theorem digitChar_isDigit : ∀ m : Nat, m < 10 → isDigitCh (Nat.digitChar m) = true := by
  decide

theorem toDigitsCore_shape (fuel : Nat) :
    ∀ (n : Nat) (ds : List Char), ∃ pre : List Char,
      Nat.toDigitsCore 10 fuel n ds = pre ++ ds ∧ (0 < fuel → pre ≠ []) ∧
      ∀ c ∈ pre, isDigitCh c = true := by
  induction fuel with
  | zero =>
    intro n ds
    exact ⟨[], by simp [Nat.toDigitsCore], by simp, by simp⟩
  | succ f ih =>
    intro n ds
    have hd : isDigitCh (Nat.digitChar (n % 10)) = true :=
      digitChar_isDigit _ (Nat.mod_lt _ (by norm_num))
    by_cases h : n / 10 = 0
    · exact ⟨[Nat.digitChar (n % 10)], by simp [Nat.toDigitsCore, h], by simp,
        by simpa using hd⟩
    · obtain ⟨pre, hpre, _, hdig⟩ := ih (n / 10) (Nat.digitChar (n % 10) :: ds)
      refine ⟨pre ++ [Nat.digitChar (n % 10)], ?_, by simp, ?_⟩
      · simp [Nat.toDigitsCore, h, hpre]
      · intro c hc
        rcases List.mem_append.mp hc with hc | hc
        · exact hdig c hc
        · rw [List.mem_singleton.mp hc]
          exact hd

theorem natRepr_data (n : Nat) :
    ∃ pre : List Char, (Nat.repr n).data = pre ∧ pre ≠ [] ∧
      ∀ c ∈ pre, isDigitCh c = true := by
  obtain ⟨pre, hpre, hne, hdig⟩ := toDigitsCore_shape (n + 1) n []
  refine ⟨pre, ?_, hne (Nat.succ_pos n), hdig⟩
  show (Nat.repr n).data = pre
  rw [Nat.repr, Nat.toDigits, hpre]
  simp [List.asString]

theorem natRepr_ne_empty (n : Nat) : Nat.repr n ≠ "" := by
  obtain ⟨pre, hd, hne, _⟩ := natRepr_data n
  intro hc
  rw [hc] at hd
  exact hne hd.symm

theorem intToString_ne_empty (i : Int) : toString i ≠ "" := by
  cases i with
  | ofNat m => simpa [toString, Int.repr] using natRepr_ne_empty m
  | negSucc m =>
    simp only [toString, Int.repr]
    intro hc
    have : ("-" ++ Nat.repr (m + 1)).data = "".data := by rw [hc]
    simp [String.data_append] at this

/-! Claim C10. -/

/-- Claim C10: an element of the quizData grammar's questions array that
lacks a `correctIndex` field is mapped with answer "1" (the default 0
converted to a 1-based string), and no element the quizData path maps ever
carries an empty answer string. -/
theorem C10_quiz_answer_default :
    ∀ (j : Json) (q : Question), mapQuizElem j = some q →
      q.answer ≠ "" ∧
      (∀ kvs, j = Json.obj kvs → jGet kvs "correctIndex" = none →
        q.answer = "1") := by
  intro j q hq
  cases j with
  | obj kvs =>
    simp only [mapQuizElem] at hq
    cases hopt : quizOptions kvs with
    | none => simp [hopt] at hq
    | some opts =>
      cases hci : quizCorrectIndexPlus1 kvs with
      | none => simp [hopt, hci] at hq
      | some ansN =>
        simp only [hopt, hci] at hq
        have hqv := Option.some.inj hq
        constructor
        · rw [← hqv]
          exact intToString_ne_empty ansN
        · intro kvs' hkv hnone
          injection hkv with hk
          subst hk
          have h1 : ansN = 1 := by
            simp [quizCorrectIndexPlus1, hnone] at hci
            omega
          rw [← hqv]
          subst h1
          rfl
  | null => exact absurd hq (by simp [mapQuizElem])
  | bool b => exact absurd hq (by simp [mapQuizElem])
  | int n => exact absurd hq (by simp [mapQuizElem])
  | fnum l => exact absurd hq (by simp [mapQuizElem])
  | str s => exact absurd hq (by simp [mapQuizElem])
  | arr xs => exact absurd hq (by simp [mapQuizElem])

/-- Claim C10 witness: the mapping of a concrete element without
`correctIndex`. -/
theorem C10_quiz_answer_default_witness :
    mapQuizElem (Json.obj [("text", Json.str "T")]) = some c10mapped ∧
    c10mapped.answer ≠ "" ∧
    (∀ kvs, Json.obj [("text", Json.str "T")] = Json.obj kvs →
      jGet kvs "correctIndex" = none → c10mapped.answer = "1") := by
  refine ⟨by decide, ?_⟩
  exact C10_quiz_answer_default (Json.obj [("text", Json.str "T")]) _ (by decide)

/-! Facts about `splitNl`, `pyStripL` and `blockLines`: stripping a block
does not change its non-blank stripped lines. -/

theorem splitNl_ne_nil (l : List Char) : splitNl l ≠ [] := by
  cases l with
  | nil => simp [splitNl]
  | cons c r =>
    by_cases h : c = '\n'
    · simp [splitNl, h]
    · simp only [splitNl, h, if_false]
      cases hs : splitNl r <;> simp

theorem splitNl_cons_nl (r : List Char) : splitNl ('\n' :: r) = [] :: splitNl r := by
  simp [splitNl]

theorem splitNl_cons_ne {c : Char} (r : List Char) (hc : ¬ c = '\n')
    {h : List Char} {t : List (List Char)} (he : splitNl r = h :: t) :
    splitNl (c :: r) = (c :: h) :: t := by
  simp [splitNl, hc, he]

theorem blockLines_eq_data (b : String) : blockLines b = blockLinesL b.data := by
  simp only [blockLines, blockLinesL, pySplitLines, List.filterMap_map]
  refine List.filterMap_congr fun x _ => ?_
  simp only [Function.comp_apply, pyStrip]
  by_cases h : pyStripL x = []
  · simp [h]
  · have hne : ¬ (String.mk (pyStripL x) = "") := fun hc =>
      h (by simpa using congrArg String.data hc)
    simp [h, hne]

theorem pyStripL_cons_ws {c : Char} (h : isPySpace c = true) (l : List Char) :
    pyStripL (c :: l) = pyStripL l := by
  simp [pyStripL, List.dropWhile, h]

theorem blockLinesL_cons_nl (r : List Char) :
    blockLinesL ('\n' :: r) = blockLinesL r := by
  simp [blockLinesL, splitNl_cons_nl, List.filterMap, pyStripL, dropRightWhileCh]

theorem blockLinesL_dropWhile (cs : List Char) :
    blockLinesL (cs.dropWhile isPySpace) = blockLinesL cs := by
  induction cs with
  | nil => rfl
  | cons c r ih =>
    by_cases h : isPySpace c
    · rw [List.dropWhile_cons_of_pos h]
      rw [ih]
      by_cases hn : c = '\n'
      · rw [hn, blockLinesL_cons_nl]
      · obtain ⟨hh, ht, hht⟩ : ∃ hh ht, splitNl r = hh :: ht := by
          cases hs : splitNl r with
          | nil => exact absurd hs (splitNl_ne_nil r)
          | cons a b => exact ⟨a, b, rfl⟩
        have h1 : splitNl (c :: r) = (c :: hh) :: ht := splitNl_cons_ne r hn hht
        simp only [blockLinesL, h1, hht, List.filterMap]
        rw [pyStripL_cons_ws h hh]
    · rw [List.dropWhile_cons_of_neg h]

theorem dropWhile_append_of_ne {p : Char → Bool} {xs : List Char}
    (ys : List Char) (h : xs.dropWhile p ≠ []) :
    (xs ++ ys).dropWhile p = xs.dropWhile p ++ ys := by
  induction xs with
  | nil => exact absurd rfl h
  | cons x xs' ih =>
    by_cases hx : p x
    · rw [List.dropWhile_cons_of_pos hx] at h
      simp only [List.cons_append, List.dropWhile_cons_of_pos hx]
      exact ih h
    · simp [List.dropWhile_cons_of_neg hx]

theorem dropWhile_append_of_nil {p : Char → Bool} {xs : List Char}
    (ys : List Char) (h : xs.dropWhile p = []) :
    (xs ++ ys).dropWhile p = ys.dropWhile p := by
  induction xs with
  | nil => rfl
  | cons x xs' ih =>
    by_cases hx : p x
    · rw [List.dropWhile_cons_of_pos hx] at h
      simp only [List.cons_append, List.dropWhile_cons_of_pos hx]
      exact ih h
    · rw [List.dropWhile_cons_of_neg hx] at h
      exact absurd h (by simp)

theorem dropRightWhileCh_concat_pos {p : Char → Bool} {c : Char}
    (h : p c = true) (l : List Char) :
    dropRightWhileCh p (l ++ [c]) = dropRightWhileCh p l := by
  simp [dropRightWhileCh, List.dropWhile, h]

theorem pyStripL_concat_ws {c : Char} (h : isPySpace c = true) (l : List Char) :
    pyStripL (l ++ [c]) = pyStripL l := by
  by_cases hnil : l.dropWhile isPySpace = []
  · have h1 : (l ++ [c]).dropWhile isPySpace = [] := by
      rw [dropWhile_append_of_nil _ hnil]
      simp [List.dropWhile, h]
    simp [pyStripL, h1, hnil, dropRightWhileCh]
  · rw [pyStripL, dropWhile_append_of_ne _ hnil,
      dropRightWhileCh_concat_pos h, pyStripL]

theorem splitNl_concat_nl (l : List Char) :
    splitNl (l ++ ['\n']) = splitNl l ++ [[]] := by
  induction l with
  | nil => rfl
  | cons c r ih =>
    by_cases h : c = '\n'
    · subst h
      simp only [List.cons_append, splitNl_cons_nl, ih, List.cons_append]
    · obtain ⟨hh, ht, hht⟩ : ∃ hh ht, splitNl r = hh :: ht := by
        cases hs : splitNl r with
        | nil => exact absurd hs (splitNl_ne_nil r)
        | cons a b => exact ⟨a, b, rfl⟩
      have h2 : splitNl (r ++ ['\n']) = hh :: (ht ++ [[]]) := by
        rw [ih, hht]
        rfl
      rw [List.cons_append, splitNl_cons_ne _ h h2, splitNl_cons_ne r h hht]
      rfl

theorem splitNl_concat_ne {c : Char} (hc : ¬ c = '\n') :
    ∀ (l : List Char) (ys : List (List Char)) (lastL : List Char),
      splitNl l = ys ++ [lastL] →
      splitNl (l ++ [c]) = ys ++ [lastL ++ [c]] := by
  intro l
  induction l with
  | nil =>
    intro ys lastL h
    cases ys with
    | nil =>
      simp only [splitNl, List.nil_append] at h
      have : lastL = [] := by simpa using (List.cons.injEq _ _ _ _).mp h.symm |>.1
      subst this
      simp [splitNl, hc]
    | cons y ys' =>
      simp only [splitNl] at h
      have := (List.cons.injEq _ _ _ _).mp h
      exact absurd this.2.symm (by simp)
  | cons d r ih =>
    intro ys lastL h
    by_cases hd : d = '\n'
    · subst hd
      rw [splitNl_cons_nl] at h
      cases ys with
      | nil =>
        have := (List.cons.injEq _ _ _ _).mp h
        exact absurd this.2 (splitNl_ne_nil r)
      | cons y ys' =>
        have hy := (List.cons.injEq _ _ _ _).mp h
        have h2 := ih ys' lastL hy.2.symm.symm
        rw [List.cons_append, splitNl_cons_nl, h2, ← hy.1]
        rfl
    · obtain ⟨hh, ht, hht⟩ : ∃ hh ht, splitNl r = hh :: ht := by
        cases hs : splitNl r with
        | nil => exact absurd hs (splitNl_ne_nil r)
        | cons a b => exact ⟨a, b, rfl⟩
      rw [splitNl_cons_ne r hd hht] at h
      cases ys with
      | nil =>
        have hy := (List.cons.injEq _ _ _ _).mp h
        have ht0 : ht = [] := by simpa using hy.2.symm
        have hlast : lastL = d :: hh := hy.1.symm
        have h2 : splitNl (r ++ [c]) = (hh ++ [c]) :: [] := by
          have := ih [] hh (by rw [hht, ht0]; rfl)
          simpa using this
        rw [List.cons_append, splitNl_cons_ne _ hd h2, hlast]
        simp
      | cons y ys' =>
        have hy := (List.cons.injEq _ _ _ _).mp h
        have h2 : splitNl (r ++ [c]) = (hh :: ys') ++ [lastL ++ [c]] :=
          ih (hh :: ys') lastL (by rw [hht, hy.2]; rfl)
        have h2x : splitNl (r ++ [c]) = hh :: (ys' ++ [lastL ++ [c]]) := by
          simpa using h2
        rw [List.cons_append, splitNl_cons_ne _ hd h2x, ← hy.1]
        rfl

theorem blockLinesL_concat_ws {c : Char} (h : isPySpace c = true)
    (l : List Char) : blockLinesL (l ++ [c]) = blockLinesL l := by
  by_cases hn : c = '\n'
  · subst hn
    rw [blockLinesL, splitNl_concat_nl, List.filterMap_append]
    simp [blockLinesL, List.filterMap, pyStripL, dropRightWhileCh]
  · obtain ⟨ys, lastL, hsplit⟩ : ∃ ys lastL, splitNl l = ys ++ [lastL] := by
      rcases List.eq_nil_or_concat (splitNl l) with hnil | ⟨ys, a, hys⟩
      · exact absurd hnil (splitNl_ne_nil l)
      · exact ⟨ys, a, by simpa [List.concat_eq_append] using hys⟩
    rw [blockLinesL, splitNl_concat_ne hn l ys lastL hsplit,
      List.filterMap_append, blockLinesL, hsplit, List.filterMap_append]
    congr 1
    simp [List.filterMap, pyStripL_concat_ws h]

theorem blockLinesL_dropRight (cs : List Char) :
    blockLinesL (dropRightWhileCh isPySpace cs) = blockLinesL cs := by
  induction cs using List.reverseRecOn with
  | nil => rfl
  | append_singleton l c ih =>
    by_cases h : isPySpace c
    · rw [dropRightWhileCh_concat_pos h, ih, blockLinesL_concat_ws h]
    · have hid : dropRightWhileCh isPySpace (l ++ [c]) = l ++ [c] := by
        simp [dropRightWhileCh, List.reverse_append, List.dropWhile_cons_of_neg h]
      rw [hid]

theorem blockLines_pyStrip (b : String) :
    blockLines (pyStrip b) = blockLines b := by
  rw [blockLines_eq_data, blockLines_eq_data]
  show blockLinesL (pyStripL b.data) = blockLinesL b.data
  rw [pyStripL, blockLinesL_dropRight, blockLinesL_dropWhile]

/-! Claim C8. -/

/-- Claim C8: a candidate block with fewer than 3 non-blank lines is
discarded by the plain-text parser — it contributes no Question. -/
theorem C8_short_block_discarded :
    ∀ b : String, (blockLines b).length < 3 → parse_block b = none := by
  intro b h
  unfold parse_block
  by_cases h0 : pyStrip b = ""
  · simp [h0]
  · have hb : blockLines (pyStrip b) = blockLines b := blockLines_pyStrip b
    simp [h0, hb, h]

/-- Claim C8 witness: a two-line block is discarded. -/
theorem C8_short_block_discarded_witness :
    (blockLines "x\ny").length < 3 ∧ parse_block "x\ny" = none :=
  ⟨by decide, C8_short_block_discarded "x\ny" (by decide)⟩

/-! Structural facts about the per-block parser, shared by the invariant
claims. -/

theorem brJoin_ne_empty (x y : String) : x ++ "<br>" ++ y ≠ "" := by
  intro hc
  have hd := congrArg String.data hc
  rw [String.data_append, String.data_append] at hd
  simp at hd

theorem blockLines_all_ne_empty (b : String) : ∀ l ∈ blockLines b, l ≠ "" := by
  intro l hl
  simp only [blockLines, List.mem_filterMap] at hl
  obtain ⟨a, _, ha⟩ := hl
  by_cases h : pyStrip a = ""
  · simp [h] at ha
  · simp only [h, if_false] at ha
    exact (Option.some.inj ha) ▸ h

theorem questionSplit_snd_mem (lines : List String) :
    ∀ x ∈ (questionSplit lines).2, x ∈ lines := by
  intro x hx
  cases lines with
  | nil => simp [questionSplit] at hx
  | cons l0 rest =>
    simp only [questionSplit] at hx
    by_cases h : isHeaderLine l0
    · rw [if_pos h] at hx
      simp only [List.span_eq_take_drop] at hx
      exact List.mem_cons_of_mem l0
        ((List.dropWhile_sublist _).mem hx)
    · rw [if_neg h] at hx
      simp only [List.span_eq_take_drop] at hx
      exact (List.dropWhile_sublist _).mem hx

theorem optionsLoop_fst_ne_empty :
    ∀ (ls : List String) (a : Nat), (∀ l ∈ ls, l ≠ "") →
      ∀ o ∈ (optionsLoop ls a).1, o ≠ "" := by
  intro ls a
  induction ls, a using optionsLoop.induct with
  | case1 x =>
    intro _ o ho
    simp [optionsLoop] at ho
  | case2 l ls =>
    intro _ o ho
    simp [optionsLoop] at ho
  | case3 l n hopt =>
    intro h o ho
    simp only [optionsLoop, hopt] at ho
    have ho2 : o ∈ [l] := by simpa using ho
    rw [List.mem_singleton.mp ho2]
    exact h l (by simp)
  | case4 l n h1 h2 =>
    intro h o ho
    simp [optionsLoop, h1, h2] at ho
  | case5 l n h1 h2 =>
    intro h o ho
    simp [optionsLoop, h1, h2] at ho
  | case6 l l2 ls2 a hopt hcs ih =>
    intro h o ho
    simp only [optionsLoop, hopt, hcs, if_true] at ho
    rcases List.mem_cons.mp ho with ho | ho
    · rw [ho]; exact h l (by simp)
    · exact ih (fun x hx => h x (List.mem_cons_of_mem l hx)) o ho
  | case7 l l2 ls2 a hopt hcs ih =>
    intro h o ho
    simp only [optionsLoop, hopt, hcs, if_true, Bool.false_eq_true,
      if_false] at ho
    rcases List.mem_cons.mp ho with ho | ho
    · rw [ho]; exact brJoin_ne_empty l l2
    · exact ih (fun x hx => h x (by simp [hx])) o ho
  | case8 l l2 ls2 a h1 h2 =>
    intro h o ho
    simp [optionsLoop, h1, h2] at ho
  | case9 l l2 ls2 a h1 h2 ih =>
    intro h o ho
    simp only [optionsLoop, h1, h2, if_false] at ho
    exact ih (fun x hx => h x (List.mem_cons_of_mem l hx)) o ho

theorem answerMapGet_range (c : Char) :
    answerMapGet c = "1" ∨ answerMapGet c = "2" ∨ answerMapGet c = "3" ∨
      answerMapGet c = "4" ∨ answerMapGet c = "5" := by
  unfold answerMapGet
  split <;> simp

theorem lineAnswerUpdate_range (l : String) (v : String)
    (h : lineAnswerUpdate l = some v) :
    v = "1" ∨ v = "2" ∨ v = "3" ∨ v = "4" ∨ v = "5" := by
  unfold lineAnswerUpdate at h
  split at h
  · obtain ⟨c, _, hc⟩ := Option.map_eq_some'.mp h
    exact hc ▸ answerMapGet_range c
  · split at h
    · obtain ⟨c, _, hc⟩ := Option.map_eq_some'.mp h
      exact hc ▸ answerMapGet_range c
    · exact absurd h (by simp)

theorem scanAnswer_range :
    ∀ (ls : List String) (init : String),
      (init = "" ∨ init = "1" ∨ init = "2" ∨ init = "3" ∨ init = "4" ∨
        init = "5") →
      (scanAnswer ls init = "" ∨ scanAnswer ls init = "1" ∨
        scanAnswer ls init = "2" ∨ scanAnswer ls init = "3" ∨
        scanAnswer ls init = "4" ∨ scanAnswer ls init = "5") := by
  intro ls
  induction ls with
  | nil => intro init h; exact h
  | cons l ls ih =>
    intro init h
    have hstep : scanAnswer (l :: ls) init =
        scanAnswer ls ((lineAnswerUpdate l).getD init) := rfl
    rw [hstep]
    cases hu : lineAnswerUpdate l with
    | none =>
      rw [Option.getD_none]
      exact ih init h
    | some v =>
      rw [Option.getD_some]
      have hv := lineAnswerUpdate_range l v hu
      refine ih v ?_
      tauto

theorem parse_block_some_shape (b : String) (q : Question)
    (h : parse_block b = some q) :
    ∃ lines : List String, (∀ l ∈ lines, l ≠ "") ∧
      q = buildBlockQuestion lines ∧
      q.question ≠ "" ∧ (q.option_1 ≠ "" ∨ q.option_2 ≠ "") := by
  unfold parse_block at h
  by_cases h0 : pyStrip b = ""
  · simp [h0] at h
  · rw [if_neg h0] at h
    by_cases h3 : (blockLines (pyStrip b)).length < 3
    · rw [if_pos h3] at h
      exact absurd h (by simp)
    · rw [if_neg h3] at h
      have h2 : (if (buildBlockQuestion (blockLines (pyStrip b))).question ≠ "" ∧
            ((buildBlockQuestion (blockLines (pyStrip b))).option_1 ≠ "" ∨
              (buildBlockQuestion (blockLines (pyStrip b))).option_2 ≠ "") then
          some (buildBlockQuestion (blockLines (pyStrip b))) else none) =
          some q := h
      split at h2
      · refine ⟨blockLines (pyStrip b),
          blockLines_all_ne_empty (pyStrip b), ?_⟩
        rename_i hcond
        exact ⟨(Option.some.inj h2).symm,
          (Option.some.inj h2) ▸ ⟨hcond.1, hcond.2⟩⟩
      · exact absurd h2 (by simp)

theorem buildBlockQuestion_opts (lines : List String)
    (hne : ∀ l ∈ lines, l ≠ "") :
    ∃ opts : List String, (∀ o ∈ opts, o ≠ "") ∧
      (buildBlockQuestion lines).option_1 = opts.getD 0 "" ∧
      (buildBlockQuestion lines).option_2 = opts.getD 1 "" ∧
      (buildBlockQuestion lines).option_3 = opts.getD 2 "" ∧
      (buildBlockQuestion lines).option_4 = opts.getD 3 "" ∧
      (buildBlockQuestion lines).option_5 = opts.getD 4 "" := by
  refine ⟨(optionsLoop (questionSplit lines).2 5).1, ?_, rfl, rfl, rfl, rfl, rfl⟩
  exact optionsLoop_fst_ne_empty _ 5
    (fun x hx => hne x (questionSplit_snd_mem lines x hx))

theorem getD_chain {opts : List String} (hne : ∀ o ∈ opts, o ≠ "")
    (k : Nat) (h : opts.getD (k + 1) "" ≠ "") : opts.getD k "" ≠ "" := by
  have hlen : k + 1 < opts.length := by
    by_contra hc
    exact h (List.getD_eq_default _ _ (Nat.le_of_not_lt hc))
  have hk : k < opts.length := Nat.lt_of_succ_lt hlen
  rw [List.getD_eq_getElem _ _ hk]
  exact hne _ (List.getElem_mem hk)

/-! Claim C3 (amended part). -/

/-- Claim C3 as amended: every Question retained by the plain-text parser
has a non-empty question, at least one non-empty option among the first two
slots, and an answer that is empty or one of "1".."5".  (The HTML grammars
do not enforce this, as the counterexample shows.) -/
theorem C3_amended :
    ∀ (content : String) (q : Question), q ∈ parse_txt_file content →
      q.question ≠ "" ∧ (q.option_1 ≠ "" ∨ q.option_2 ≠ "") ∧
      (q.answer = "" ∨ q.answer = "1" ∨ q.answer = "2" ∨ q.answer = "3" ∨
        q.answer = "4" ∨ q.answer = "5") := by
  intro content q hq
  simp only [parse_txt_file, List.mem_filterMap] at hq
  obtain ⟨b, _, hb⟩ := hq
  obtain ⟨lines, hne, hbuild, hques, hopts⟩ := parse_block_some_shape b q hb
  refine ⟨hques, hopts, ?_⟩
  rw [hbuild]
  exact scanAnswer_range _ "" (Or.inl rfl)

/-- Claim C3 witness: the invariant evaluated on the example input's parse
result. -/
theorem C3_amended_witness :
    (parse_txt_file "1. Q\na) x\nb) y\nCorrect option:-a") =
      [{ initTxtQuestion with
          question := "Q", option_1 := "a) x", option_2 := "b) y",
          answer := "1" }] ∧
    (∀ q ∈ parse_txt_file "1. Q\na) x\nb) y\nCorrect option:-a",
      q.question ≠ "" ∧ (q.option_1 ≠ "" ∨ q.option_2 ≠ "") ∧
      (q.answer = "" ∨ q.answer = "1" ∨ q.answer = "2" ∨ q.answer = "3" ∨
        q.answer = "4" ∨ q.answer = "5")) :=
  ⟨by decide, fun q hq => C3_amended _ q hq⟩

/-! Claim C9. -/

/-- Claim C9: option slots of every Question retained by the plain-text
parser are filled contiguously — a non-empty slot k implies a non-empty
slot k-1 — and consequently `option_1` is non-empty. -/
theorem C9_options_contiguous :
    ∀ (content : String) (q : Question), q ∈ parse_txt_file content →
      (q.option_2 ≠ "" → q.option_1 ≠ "") ∧
      (q.option_3 ≠ "" → q.option_2 ≠ "") ∧
      (q.option_4 ≠ "" → q.option_3 ≠ "") ∧
      (q.option_5 ≠ "" → q.option_4 ≠ "") ∧
      q.option_1 ≠ "" := by
  intro content q hq
  simp only [parse_txt_file, List.mem_filterMap] at hq
  obtain ⟨b, _, hb⟩ := hq
  obtain ⟨lines, hne, hbuild, hques, hopts⟩ := parse_block_some_shape b q hb
  obtain ⟨opts, hone, e1, e2, e3, e4, e5⟩ :=
    buildBlockQuestion_opts lines hne
  rw [← hbuild] at e1 e2 e3 e4 e5
  have c12 : q.option_2 ≠ "" → q.option_1 ≠ "" := by
    rw [e1, e2]; exact getD_chain hone 0
  refine ⟨c12, ?_, ?_, ?_, ?_⟩
  · rw [e2, e3]; exact getD_chain hone 1
  · rw [e3, e4]; exact getD_chain hone 2
  · rw [e4, e5]; exact getD_chain hone 3
  · rcases hopts with h1 | h2
    · exact h1
    · exact c12 h2

/-- Claim C9 witness: contiguity evaluated on a concrete parse result. -/
theorem C9_options_contiguous_witness :
    (parse_txt_file "Intro\na) x\nb) y\nex: e").map
        (fun q => (q.option_1, q.option_2, q.option_3)) =
      [("a) x", "b) y", "")] ∧
    (∀ q ∈ parse_txt_file "Intro\na) x\nb) y\nex: e",
      (q.option_2 ≠ "" → q.option_1 ≠ "") ∧
      (q.option_3 ≠ "" → q.option_2 ≠ "") ∧
      (q.option_4 ≠ "" → q.option_3 ≠ "") ∧
      (q.option_5 ≠ "" → q.option_4 ≠ "") ∧
      q.option_1 ≠ "") :=
  ⟨by decide, fun q hq => C9_options_contiguous _ q hq⟩

/-! Claim C4 (amended part). -/

theorem scanAnswer_append (xs ys : List String) (init : String) :
    scanAnswer (xs ++ ys) init = scanAnswer ys (scanAnswer xs init) := by
  simp [scanAnswer, List.foldl_append]

theorem scanAnswer_no_capture (ls : List String) :
    (∀ l ∈ ls, lineAnswerUpdate l = none) →
      ∀ init : String, scanAnswer ls init = init := by
  induction ls with
  | nil => intro _ _; rfl
  | cons l ls ih =>
    intro h init
    have hstep : scanAnswer (l :: ls) init =
        scanAnswer ls ((lineAnswerUpdate l).getD init) := rfl
    rw [hstep, h l (by simp), Option.getD_none]
    exact ih (fun x hx => h x (List.mem_cons_of_mem l hx)) init

/-- Claim C4 as amended: within the lines the answer scan actually examines,
every capturing answer-marker line overwrites the stored answer, so when two
capturing lines carry conflicting letters the later one wins (provided no
capturing line follows it); answer-marker lines consumed before the scan
begins — possible, as the counterexample shows — do not participate. -/
theorem C4_amended :
    ∀ (pre mid post : List String) (l1 l2 a1 a2 : String),
      lineAnswerUpdate l1 = some a1 → lineAnswerUpdate l2 = some a2 →
      a1 ≠ a2 → (∀ l ∈ post, lineAnswerUpdate l = none) →
      ∀ init : String,
        scanAnswer (pre ++ l1 :: (mid ++ l2 :: post)) init = a2 := by
  intro pre mid post l1 l2 a1 a2 h1 h2 _ hpost init
  have e1 : pre ++ l1 :: (mid ++ l2 :: post) =
      (pre ++ [l1]) ++ (mid ++ [l2]) ++ post := by simp
  rw [e1, scanAnswer_append, scanAnswer_append,
    scanAnswer_no_capture post hpost]
  have e2 : ∀ i : String, scanAnswer (mid ++ [l2]) i = a2 := by
    intro i
    rw [scanAnswer_append]
    show (lineAnswerUpdate l2).getD _ = a2
    rw [h2, Option.getD_some]
  exact e2 _

/-- Claim C4 witness: the amended statement applied to two concrete
conflicting `Correct option` lines followed by an explanation line. -/
theorem C4_amended_witness :
    lineAnswerUpdate "Correct option:-a" = some "1" ∧
    lineAnswerUpdate "Correct option:-b" = some "2" ∧
    ("1" : String) ≠ "2" ∧
    (∀ l ∈ ["ex: done"], lineAnswerUpdate l = none) ∧
    scanAnswer ([] ++ "Correct option:-a" :: ([] ++ "Correct option:-b" ::
      ["ex: done"])) "" = "2" :=
  ⟨by decide, by decide, by decide, by decide,
    C4_amended [] [] ["ex: done"] "Correct option:-a" "Correct option:-b"
      "1" "2" (by decide) (by decide) (by decide) (by decide) ""⟩

/-! Cleanliness of the Markup Stripper's output: no newline anywhere, no
whitespace at either end.  These facts drive the round-trip analysis. -/

theorem dropWhile_len_le {α : Type} (p : α → Bool) (l : List α) :
    (l.dropWhile p).length ≤ l.length := by
  induction l with
  | nil => simp [List.dropWhile]
  | cons a t ih =>
    by_cases h : p a
    · simpa [List.dropWhile, h] using Nat.le_succ_of_le ih
    · simp [List.dropWhile, h]

theorem head_dropWhile_not_of_some {α : Type} (p : α → Bool) (l : List α)
    (c : α) (h : (l.dropWhile p).head? = some c) : p c = false := by
  have := List.head?_dropWhile_not p l
  rw [h] at this
  exact this

theorem pyStripL_split (l : List Char) :
    ∃ t : List Char, l.dropWhile isPySpace = pyStripL l ++ t ∧
      ∀ c ∈ t, isPySpace c = true := by
  refine ⟨(List.takeWhile isPySpace (l.dropWhile isPySpace).reverse).reverse,
    ?_, ?_⟩
  · have key : l.dropWhile isPySpace =
        ((List.takeWhile isPySpace (l.dropWhile isPySpace).reverse) ++
          (List.dropWhile isPySpace (l.dropWhile isPySpace).reverse)).reverse := by
      rw [List.takeWhile_append_dropWhile, List.reverse_reverse]
    conv_lhs => rw [key, List.reverse_append]
    rfl
  · intro c hc
    rw [List.mem_reverse] at hc
    exact List.mem_takeWhile_imp hc

theorem pyStripL_mem (l : List Char) : ∀ c ∈ pyStripL l, c ∈ l := by
  intro c hc
  obtain ⟨t, ht, _⟩ := pyStripL_split l
  have : c ∈ l.dropWhile isPySpace := by
    rw [ht]
    exact List.mem_append_left t hc
  exact (List.dropWhile_sublist _).mem this

theorem pyStripL_head_not_ws (l : List Char) (c : Char)
    (h : (pyStripL l).head? = some c) : isPySpace c = false := by
  obtain ⟨t, ht, _⟩ := pyStripL_split l
  have hh : (l.dropWhile isPySpace).head? = some c := by
    rw [ht]
    cases hp : pyStripL l with
    | nil => rw [hp] at h; exact absurd h (by simp)
    | cons a m =>
      rw [hp] at h
      simp only [List.head?] at h
      simp [List.cons_append, List.head?, Option.some.inj h]
  exact head_dropWhile_not_of_some _ _ _ hh

theorem pyStripL_getLast_not_ws (l : List Char) (c : Char)
    (h : (pyStripL l).getLast? = some c) : isPySpace c = false := by
  have h2 : (List.dropWhile isPySpace
      (l.dropWhile isPySpace).reverse).head? = some c := by
    have : pyStripL l = (List.dropWhile isPySpace
        (l.dropWhile isPySpace).reverse).reverse := rfl
    rw [this, List.getLast?_reverse] at h
    exact h
  exact head_dropWhile_not_of_some _ _ _ h2

theorem collapseWs_ws_space :
    ∀ (f : Nat) (l : List Char), l.length ≤ f →
      ∀ c ∈ collapseWs f l, isPySpace c = true → c = ' ' := by
  intro f
  induction f with
  | zero =>
    intro l hl c hc
    rw [List.length_eq_zero.mp (Nat.le_zero.mp hl)] at hc
    simp [collapseWs] at hc
  | succ f ih =>
    intro l hl c hc hws
    cases l with
    | nil => simp [collapseWs] at hc
    | cons a rest =>
      by_cases ha : isPySpace a
      · simp only [collapseWs, ha, if_true] at hc
        rcases List.mem_cons.mp hc with h1 | h1
        · exact h1
        · exact ih (rest.dropWhile isPySpace)
            (le_trans (dropWhile_len_le _ _) (Nat.le_of_succ_le_succ hl))
            c h1 hws
      · simp only [collapseWs, ha, if_false] at hc
        rcases List.mem_cons.mp hc with h1 | h1
        · rw [h1] at hws
          exact absurd hws (by simpa using ha)
        · exact ih rest (Nat.le_of_succ_le_succ hl) c h1 hws

theorem stripHtml_data (s : String) (h : ¬ s = "") :
    (strip_html s).data =
      pyStripL (collapseWs
        ((unescapeEnt ((removeTags (s.data.length + 1) s.data).length + 1)
            (removeTags (s.data.length + 1) s.data)).length + 1)
        (unescapeEnt ((removeTags (s.data.length + 1) s.data).length + 1)
          (removeTags (s.data.length + 1) s.data))) := by
  simp only [strip_html, h, if_false]
  rfl

theorem stripHtml_no_nl (s : String) : ∀ c ∈ (strip_html s).data, c ≠ '\n' := by
  intro c hc hn
  by_cases h0 : s = ""
  · rw [h0] at hc
    simp [strip_html] at hc
  · rw [stripHtml_data s h0] at hc
    have hmem := pyStripL_mem _ c hc
    have hsp := collapseWs_ws_space _ _ (Nat.le_succ _) c hmem
    subst hn
    exact absurd (hsp (by decide)) (by decide)

theorem stripHtml_head_not_ws (s : String) (c : Char)
    (h : (strip_html s).data.head? = some c) : isPySpace c = false := by
  by_cases h0 : s = ""
  · rw [h0] at h
    simp [strip_html] at h
  · rw [stripHtml_data s h0] at h
    exact pyStripL_head_not_ws _ c h

theorem stripHtml_getLast_not_ws (s : String) (c : Char)
    (h : (strip_html s).data.getLast? = some c) : isPySpace c = false := by
  by_cases h0 : s = ""
  · rw [h0] at h
    simp [strip_html] at h
  · rw [stripHtml_data s h0] at h
    exact pyStripL_getLast_not_ws _ c h

/-! Re-splitting a newline-join of clean lines recovers the lines. -/

theorem splitNl_no_nl (l : List Char) (h : ∀ c ∈ l, c ≠ '\n') :
    splitNl l = [l] := by
  induction l with
  | nil => rfl
  | cons c r ih =>
    have hc : ¬ c = '\n' := h c (by simp)
    have hr := ih fun c hc2 => h c (List.mem_cons_of_mem _ hc2)
    simp [splitNl, hc, hr]

theorem splitNl_append_nl (xs rest : List Char) (h : ∀ c ∈ xs, c ≠ '\n') :
    splitNl (xs ++ '\n' :: rest) = xs :: splitNl rest := by
  induction xs with
  | nil => simp [splitNl]
  | cons c xs' ih =>
    have hc : ¬ c = '\n' := h c (by simp)
    have h2 := ih fun c hc2 => h c (List.mem_cons_of_mem _ hc2)
    rw [List.cons_append, splitNl_cons_ne _ hc h2]

theorem joinNl_data_cons (x : String) (xs : List String) (h : xs ≠ []) :
    (joinNl (x :: xs)).data = x.data ++ '\n' :: (joinNl xs).data := by
  cases xs with
  | nil => exact absurd rfl h
  | cons y ys =>
    show (x ++ "\n" ++ joinNl (y :: ys)).data = _
    rw [String.data_append, String.data_append]
    have hnl : ("\n" : String).data = ['\n'] := by decide
    rw [hnl, List.append_assoc]
    rfl

theorem splitNl_joinNl :
    ∀ ls : List String, ls ≠ [] →
      (∀ x ∈ ls, ∀ c ∈ x.data, c ≠ '\n') →
      splitNl (joinNl ls).data = ls.map String.data := by
  intro ls
  induction ls with
  | nil => intro h; exact absurd rfl h
  | cons x xs ih =>
    intro _ hcl
    cases xs with
    | nil =>
      show splitNl x.data = [x.data]
      exact splitNl_no_nl x.data (hcl x (by simp))
    | cons y ys =>
      rw [joinNl_data_cons x (y :: ys) (by simp)]
      rw [splitNl_append_nl _ _ (hcl x (by simp))]
      rw [ih (by simp) fun z hz => hcl z (List.mem_cons_of_mem _ hz)]
      rfl

theorem joinNl_head? (x : String) (xs : List String) (hx : x ≠ "") :
    (joinNl (x :: xs)).data.head? = x.data.head? := by
  cases xs with
  | nil => rfl
  | cons y ys =>
    rw [joinNl_data_cons x (y :: ys) (by simp)]
    cases hd : x.data with
    | nil => exact absurd (by simpa using congrArg String.mk hd) hx
    | cons c m => simp [hd]

theorem data_ne_nil (x : String) (h : x ≠ "") : x.data ≠ [] := by
  intro hc
  exact h (by simpa using congrArg String.mk hc)

theorem joinNl_getLast? :
    ∀ (x : String) (xs : List String), (∀ y, (y = x ∨ y ∈ xs) → y ≠ "") →
      ∃ y, (y = x ∨ y ∈ xs) ∧
        (joinNl (x :: xs)).data.getLast? = y.data.getLast? := by
  intro x xs
  induction xs generalizing x with
  | nil => intro _; exact ⟨x, Or.inl rfl, rfl⟩
  | cons y ys ih =>
    intro hne
    obtain ⟨z, hz, hlast⟩ := ih y (fun w hw => hne w (by
      rcases hw with h | h
      · exact Or.inr (h ▸ List.mem_cons_self y ys)
      · exact Or.inr (List.mem_cons_of_mem y h)))
    refine ⟨z, by
      rcases hz with h | h
      · exact Or.inr (h ▸ List.mem_cons_self y ys)
      · exact Or.inr (List.mem_cons_of_mem y h), ?_⟩
    rw [joinNl_data_cons x (y :: ys) (by simp), List.getLast?_append]
    rw [show ('\n' :: (joinNl (y :: ys)).data).getLast? =
        ((['\n'] ++ (joinNl (y :: ys)).data)).getLast? from rfl,
      List.getLast?_append]
    cases hj : (joinNl (y :: ys)).data with
    | nil =>
      have hhd : (joinNl (y :: ys)).data.head? = y.data.head? :=
        joinNl_head? y ys (hne y (by simp))
      rw [hj] at hhd
      cases hyd : y.data with
      | nil => exact absurd hyd (data_ne_nil y (hne y (by simp)))
      | cons a b =>
        rw [hyd] at hhd
        exact absurd hhd.symm (by simp)
    | cons c m =>
      cases hcm : (c :: m).getLast? with
      | none => exact absurd hcm (by simp [List.getLast?])
      | some w =>
        rw [hj, hcm] at hlast
        rw [← hlast]
        rfl

theorem pyStripL_eq_self (l : List Char)
    (hh : ∀ c, l.head? = some c → isPySpace c = false)
    (hl : ∀ c, l.getLast? = some c → isPySpace c = false) :
    pyStripL l = l := by
  have h1 : l.dropWhile isPySpace = l := by
    cases l with
    | nil => rfl
    | cons c m =>
      exact List.dropWhile_cons_of_neg (by simp [hh c rfl])
  have h2 : l.reverse.dropWhile isPySpace = l.reverse := by
    cases hrev : l.reverse with
    | nil => rfl
    | cons c m =>
      have hc : l.getLast? = some c := by
        rw [← List.head?_reverse, hrev]
        rfl
      rw [← hrev]
      rw [hrev]
      exact List.dropWhile_cons_of_neg (by simp [hl c hc])
  rw [pyStripL, h1, dropRightWhileCh, h2, List.reverse_reverse]

theorem filterMap_strip_clean :
    ∀ ls : List String, (∀ x ∈ ls, cleanLine x) →
      (ls.map String.data).filterMap
        (fun x => if pyStripL x = [] then none else some (⟨pyStripL x⟩ : String)) =
        ls := by
  intro ls
  induction ls with
  | nil => intro _; rfl
  | cons x xs ih =>
    intro h
    obtain ⟨hx0, _, hxh, hxl⟩ := h x (by simp)
    have hid : pyStripL x.data = x.data := pyStripL_eq_self x.data hxh hxl
    have hne : pyStripL x.data ≠ [] := by
      rw [hid]
      exact data_ne_nil x hx0
    simp only [List.map_cons, List.filterMap_cons, hne, if_false]
    rw [ih fun y hy => h y (List.mem_cons_of_mem x hy)]
    congr 1
    rw [hid]

theorem joinNl_clean_ne_empty (x : String) (xs : List String)
    (hx : cleanLine x) : joinNl (x :: xs) ≠ "" := by
  intro hc
  have hh : (joinNl (x :: xs)).data.head? = x.data.head? :=
    joinNl_head? x xs hx.1
  rw [hc] at hh
  cases hxd : x.data with
  | nil => exact data_ne_nil x hx.1 hxd
  | cons c m =>
    rw [hxd] at hh
    exact absurd hh.symm (by simp)

theorem blockLines_joinNl (ls : List String) (hne0 : ls ≠ [])
    (hprops : ∀ x ∈ ls, cleanLine x) :
    pyStrip (joinNl ls) = joinNl ls ∧ joinNl ls ≠ "" ∧
      blockLines (joinNl ls) = ls := by
  cases ls with
  | nil => exact absurd rfl hne0
  | cons x xs =>
    have hx := hprops x (by simp)
    have hstrip : pyStrip (joinNl (x :: xs)) = joinNl (x :: xs) := by
      have hid : pyStripL (joinNl (x :: xs)).data = (joinNl (x :: xs)).data := by
        refine pyStripL_eq_self _ ?_ ?_
        · intro c hc
          rw [joinNl_head? x xs hx.1] at hc
          exact hx.2.2.1 c hc
        · intro c hc
          obtain ⟨y, hy, hyl⟩ := joinNl_getLast? x xs (fun w hw => by
            rcases hw with h | h
            · exact (h ▸ hx.1)
            · exact (hprops w (List.mem_cons_of_mem x h)).1)
          rw [hyl] at hc
          rcases hy with h | h
          · exact (h ▸ hx).2.2.2 c hc
          · exact (hprops y (List.mem_cons_of_mem x h)).2.2.2 c hc
      show (⟨pyStripL (joinNl (x :: xs)).data⟩ : String) = _
      rw [hid]
    refine ⟨hstrip, joinNl_clean_ne_empty x xs hx, ?_⟩
    rw [blockLines_eq_data]
    show blockLinesL (joinNl (x :: xs)).data = x :: xs
    rw [blockLinesL,
      splitNl_joinNl (x :: xs) (by simp) (fun y hy => (hprops y hy).2.1)]
    exact filterMap_strip_clean (x :: xs) hprops

/-! Shape facts about the serializer's lines, and the behaviour of the
option loop and question split on them. -/

theorem startsWithCI_append_left (pat xs ys : List Char)
    (h : startsWithCI pat xs = true) :
    startsWithCI pat (xs ++ ys) = true := by
  induction pat generalizing xs with
  | nil => rfl
  | cons p ps ih =>
    cases xs with
    | nil => exact absurd h (by simp [startsWithCI])
    | cons c cs =>
      simp only [startsWithCI, Bool.and_eq_true] at h
      simp only [List.cons_append, startsWithCI, Bool.and_eq_true]
      exact ⟨h.1, ih cs h.2⟩

theorem cleanLine_glue (a w : String) (ha : a.data ≠ [])
    (hah : ∀ c, a.data.head? = some c → isPySpace c = false)
    (han : ∀ c ∈ a.data, c ≠ '\n')
    (hw : w.data ≠ [])
    (hwl : ∀ c, w.data.getLast? = some c → isPySpace c = false)
    (hwn : ∀ c ∈ w.data, c ≠ '\n') : cleanLine (a ++ w) := by
  have hdata : (a ++ w).data = a.data ++ w.data := String.data_append a w
  refine ⟨?_, ?_, ?_, ?_⟩
  · intro hc
    have := congrArg String.data hc
    rw [hdata] at this
    simp only [List.append_eq_nil] at this
    exact ha this.1
  · intro c hc
    rw [hdata] at hc
    rcases List.mem_append.mp hc with h | h
    · exact han c h
    · exact hwn c h
  · intro c hc
    rw [hdata] at hc
    cases had : a.data with
    | nil => exact absurd had ha
    | cons x m =>
      rw [had] at hc
      have hxc : x = c := by simpa using hc
      exact hah c (by rw [had, hxc]; exact rfl)
  · intro c hc
    rw [hdata, List.getLast?_append] at hc
    cases hwd : w.data.getLast? with
    | none =>
      cases hwdd : w.data with
      | nil => exact absurd hwdd hw
      | cons x m => rw [hwdd] at hwd; simp [List.getLast?] at hwd
    | some c2 =>
      rw [hwd] at hc
      have hc2 : (some c2 : Option Char) = some c := hc
      exact hwl c (by rw [hwd, Option.some.inj hc2])

theorem takeWhile_all_stop (p : Char → Bool) (xs : List Char) (y : Char)
    (ys : List Char) (hx : ∀ x ∈ xs, p x = true) (hy : p y = false) :
    (xs ++ y :: ys).takeWhile p = xs := by
  induction xs with
  | nil => simp [List.takeWhile, hy]
  | cons x m ih =>
    simp only [List.cons_append, List.takeWhile_cons, hx x (by simp), if_true]
    rw [ih fun z hz => hx z (List.mem_cons_of_mem x hz)]

theorem isOptMarker_mkTrue (c1 : Char) (t : List Char)
    (h1 : isAE c1 = true) : isOptMarker ⟨c1 :: ')' :: t⟩ = true := by
  simp [isOptMarker, h1]

theorem optionsLoop_stopped (r0 : String) (rs : List String) (a : Nat)
    (h1 : isOptMarker r0 = false) (h2 : isStop r0 = true) :
    optionsLoop (r0 :: rs) a = ([], r0 :: rs) := by
  cases a with
  | zero => cases rs <;> rfl
  | succ a' =>
    cases rs with
    | nil => simp [optionsLoop, h1, h2]
    | cons r1 rs' => simp [optionsLoop, h1, h2]

theorem optionsLoop_run :
    ∀ (optLs : List String) (a : Nat) (r0 : String) (rs : List String),
      optLs.length ≤ a → (∀ l ∈ optLs, isOptMarker l = true) →
      isOptMarker r0 = false → isStop r0 = true →
      optionsLoop (optLs ++ r0 :: rs) a = (optLs, r0 :: rs) := by
  intro optLs
  induction optLs with
  | nil =>
    intro a r0 rs _ _ hr1 hr2
    exact optionsLoop_stopped r0 rs a hr1 hr2
  | cons l ls ih =>
    intro a r0 rs hlen hall hr1 hr2
    cases a with
    | zero => simp at hlen
    | succ a' =>
      have hl : isOptMarker l = true := hall l (by simp)
      cases ls with
      | nil =>
        have hcs : isContStop r0 = true := by
          simp [isContStop, isStop] at hr2 ⊢
          tauto
        show optionsLoop (l :: r0 :: rs) (a' + 1) = ([l], r0 :: rs)
        simp only [optionsLoop, hl, if_true, hcs]
        rw [optionsLoop_stopped r0 rs a' hr1 hr2]
      | cons l2 ls' =>
        have hl2 : isOptMarker l2 = true := hall l2 (by simp)
        have hcs : isContStop l2 = true := by
          simp [isContStop, hl2]
        show optionsLoop (l :: l2 :: (ls' ++ r0 :: rs)) (a' + 1) = _
        simp only [optionsLoop, hl, if_true, hcs]
        rw [show l2 :: (ls' ++ r0 :: rs) = (l2 :: ls') ++ r0 :: rs from rfl]
        rw [ih a' r0 rs (by simpa using Nat.le_of_succ_le_succ hlen)
          (fun z hz => hall z (List.mem_cons_of_mem l hz)) hr1 hr2]

theorem questionSplit_header (l0 o1 : String) (rest : List String)
    (hh : isHeaderLine l0 = true) (ho : isOptMarker o1 = true) :
    questionSplit (l0 :: o1 :: rest) = ([stripHeader l0], o1 :: rest) := by
  simp only [questionSplit, hh, if_true, List.span_eq_take_drop]
  rw [List.takeWhile_cons_of_neg (by simp [ho]),
    List.dropWhile_cons_of_neg (by simp [ho])]

theorem digit_not_ws : ∀ c : Char, isDigitCh c = true → isPySpace c = false := by
  intro c h
  by_contra hb
  have ht : isPySpace c = true := by simpa using hb
  simp only [isPySpace, Bool.or_eq_true, decide_eq_true_eq] at ht
  rcases ht with (((((h1 | h1) | h1) | h1) | h1) | h1) <;>
    (subst h1; exact absurd h (by decide))

theorem digit_not_nl : ∀ c : Char, isDigitCh c = true → c ≠ '\n' := by
  intro c h hc
  subst hc
  exact absurd h (by decide)

theorem numline_facts (idx : Nat) (sQ : String) (hQ : sQ ≠ "")
    (hQh : ∀ c, sQ.data.head? = some c → isPySpace c = false)
    (hQn : ∀ c ∈ sQ.data, c ≠ '\n')
    (hQl : ∀ c, sQ.data.getLast? = some c → isPySpace c = false) :
    cleanLine (toString idx ++ ". " ++ sQ) ∧
    isHeaderLine (toString idx ++ ". " ++ sQ) = true ∧
    stripHeader (toString idx ++ ". " ++ sQ) = sQ := by
  obtain ⟨pre, hD, hpne, hdig⟩ := natRepr_data idx
  have hT : (toString idx).data = pre := hD
  have haD : (toString idx ++ ". ").data = pre ++ ['.', ' '] := by
    rw [String.data_append, hT]
  have hlineD : (toString idx ++ ". " ++ sQ).data =
      pre ++ ('.' :: ' ' :: sQ.data) := by
    rw [String.data_append, haD, List.append_assoc]
    rfl
  have htake : (toString idx ++ ". " ++ sQ).data.takeWhile isDigitCh = pre := by
    rw [hlineD]
    exact takeWhile_all_stop _ pre '.' _ hdig (by decide)
  have hdrop : (toString idx ++ ". " ++ sQ).data.drop pre.length =
      '.' :: ' ' :: sQ.data := by
    rw [hlineD]
    exact List.drop_left pre _
  have hdws : (' ' :: sQ.data).dropWhile isPySpace = sQ.data := by
    rw [List.dropWhile_cons_of_pos (by decide)]
    cases hsd : sQ.data with
    | nil => exact absurd hsd (data_ne_nil sQ hQ)
    | cons c m =>
      exact List.dropWhile_cons_of_neg (by simp [hQh c (by rw [hsd]; rfl)])
  refine ⟨?_, ?_, ?_⟩
  · refine cleanLine_glue _ sQ (by rw [haD]; simp) ?_ ?_
      (data_ne_nil sQ hQ) hQl hQn
    · intro c hc
      rw [haD] at hc
      cases hpd : pre with
      | nil => exact absurd hpd hpne
      | cons d m =>
        rw [hpd] at hc
        have hdc : d = c := by simpa using hc
        exact digit_not_ws c (hdc ▸ hdig d (by rw [hpd]; simp))
    · intro c hc
      rw [haD] at hc
      rcases List.mem_append.mp hc with h | h
      · exact digit_not_nl c (hdig c h)
      · have : c = '.' ∨ c = ' ' := by simpa using h
        rcases this with h2 | h2 <;> (subst h2; decide)
  · simp only [isHeaderLine, htake, hdrop, Bool.or_eq_true, Bool.and_eq_true]
    refine Or.inl ⟨by simpa using hpne, ?_⟩
    trivial
  · simp only [stripHeader, htake]
    rw [if_pos (by simpa using hpne), hdrop]
    show (⟨(' ' :: sQ.data).dropWhile isPySpace⟩ : String) = sQ
    rw [hdws]

theorem optline_facts (c : Char) (o : String) (hae : isAE c = true)
    (hws : isPySpace c = false) (hnl : c ≠ '\n') (hso : strip_html o ≠ "") :
    cleanLine ((⟨[c]⟩ : String) ++ ") " ++ strip_html o) ∧
    isOptMarker ((⟨[c]⟩ : String) ++ ") " ++ strip_html o) = true := by
  have haD : ((⟨[c]⟩ : String) ++ ") ").data = [c, ')', ' '] := by
    rw [String.data_append]
    rfl
  constructor
  · refine cleanLine_glue _ _ (by rw [haD]; simp) ?_ ?_
      (data_ne_nil _ hso) (stripHtml_getLast_not_ws o) (stripHtml_no_nl o)
    · intro c2 hc2
      rw [haD] at hc2
      have : c = c2 := by simpa using hc2
      exact this ▸ hws
    · intro c2 hc2
      rw [haD] at hc2
      have : c2 = c ∨ c2 = ')' ∨ c2 = ' ' := by simpa using hc2
      rcases this with h2 | h2 | h2
      · exact h2 ▸ hnl
      · subst h2; decide
      · subst h2; decide
  · have hfull : ((⟨[c]⟩ : String) ++ ") " ++ strip_html o).data =
        c :: ')' :: (' ' :: (strip_html o).data) := by
      rw [String.data_append, haD]
      rfl
    have heq : (⟨[c]⟩ : String) ++ ") " ++ strip_html o =
        ⟨c :: ')' :: (' ' :: (strip_html o).data)⟩ := congrArg String.mk hfull
    rw [heq]
    exact isOptMarker_mkTrue c _ hae

theorem wellFormedQ_parts (q : Question) (hwf : wellFormedQ q = true) :
    strip_html q.question ≠ "" ∧ q.option_1 ≠ "" ∧
    (∀ k : Nat, ∀ o : String,
      (k = 1 ∧ o = q.option_1) ∨ (k = 2 ∧ o = q.option_2) ∨
      (k = 3 ∧ o = q.option_3) ∨ (k = 4 ∧ o = q.option_4) ∨
      (k = 5 ∧ o = q.option_5) → o ≠ "" → strip_html o ≠ "") ∧
    (q.answer = "" ∨ q.answer = "1" ∨ q.answer = "2" ∨ q.answer = "3" ∨
      q.answer = "4" ∨ q.answer = "5") := by
  simp only [wellFormedQ, Bool.and_eq_true, Bool.or_eq_true,
    decide_eq_true_eq] at hwf
  refine ⟨hwf.1.1.1.1.1.1.1, hwf.1.1.1.1.1.1.2, ?_, ?_⟩
  · intro k o hko ho
    rcases hko with ⟨_, h⟩ | ⟨_, h⟩ | ⟨_, h⟩ | ⟨_, h⟩ | ⟨_, h⟩ <;> subst h
    · exact hwf.1.1.1.1.1.2.resolve_left ho
    · exact hwf.1.1.1.1.2.resolve_left ho
    · exact hwf.1.1.1.2.resolve_left ho
    · exact hwf.1.1.2.resolve_left ho
    · exact hwf.1.2.resolve_left ho
  · rcases hwf.2 with (((((h | h) | h) | h) | h) | h)
    · exact Or.inl h
    · exact Or.inr <| Or.inl h
    · exact Or.inr <| Or.inr <| Or.inl h
    · exact Or.inr <| Or.inr <| Or.inr <| Or.inl h
    · exact Or.inr <| Or.inr <| Or.inr <| Or.inr <| Or.inl h
    · exact Or.inr <| Or.inr <| Or.inr <| Or.inr <| Or.inr h

theorem renderOptLines_facts (q : Question) (hwf : wellFormedQ q = true) :
    ∀ line ∈ renderOptLines q, cleanLine line ∧ isOptMarker line = true := by
  intro line hline
  obtain ⟨_, _, hstrips, _⟩ := wellFormedQ_parts q hwf
  simp only [renderOptLines] at hline
  obtain ⟨p, hp, hpe⟩ := List.mem_filterMap.mp hline
  have hp5 : p = (1, q.option_1) ∨ p = (2, q.option_2) ∨ p = (3, q.option_3) ∨
      p = (4, q.option_4) ∨ p = (5, q.option_5) := by simpa using hp
  have hgen : ∀ (k : Nat) (o : String) (c : Char), p = (k, o) →
      slotLetter k = (⟨[c]⟩ : String) → isAE c = true → isPySpace c = false →
      c ≠ '\n' →
      ((k = 1 ∧ o = q.option_1) ∨ (k = 2 ∧ o = q.option_2) ∨
        (k = 3 ∧ o = q.option_3) ∨ (k = 4 ∧ o = q.option_4) ∨
        (k = 5 ∧ o = q.option_5)) →
      cleanLine line ∧ isOptMarker line = true := by
    intro k o c hpk hsl hae hws hnl hko
    subst hpk
    by_cases ho : o = ""
    · rw [if_neg (by simp [ho])] at hpe
      exact absurd hpe (by simp)
    · rw [if_pos (by simp [ho])] at hpe
      have hline2 : line = slotLetter k ++ ") " ++ strip_html o :=
        (Option.some.inj hpe).symm
      rw [hline2, hsl]
      exact optline_facts c o hae hws hnl (hstrips k o hko ho)
  rcases hp5 with h5 | h5 | h5 | h5 | h5
  · exact hgen 1 q.option_1 'a' h5 (by decide) (by decide) (by decide)
      (by decide) (Or.inl ⟨rfl, rfl⟩)
  · exact hgen 2 q.option_2 'b' h5 (by decide) (by decide) (by decide)
      (by decide) (Or.inr (Or.inl ⟨rfl, rfl⟩))
  · exact hgen 3 q.option_3 'c' h5 (by decide) (by decide) (by decide)
      (by decide) (Or.inr (Or.inr (Or.inl ⟨rfl, rfl⟩)))
  · exact hgen 4 q.option_4 'd' h5 (by decide) (by decide) (by decide)
      (by decide) (Or.inr (Or.inr (Or.inr (Or.inl ⟨rfl, rfl⟩))))
  · exact hgen 5 q.option_5 'e' h5 (by decide) (by decide) (by decide)
      (by decide) (Or.inr (Or.inr (Or.inr (Or.inr ⟨rfl, rfl⟩))))

theorem headCond_of_concrete (x : String) (c0 : Char)
    (he : x.data.head? = some c0) (hc0 : isPySpace c0 = false) :
    ∀ c, x.data.head? = some c → isPySpace c = false := by
  intro c hc
  rw [he] at hc
  exact (Option.some.inj hc) ▸ hc0

theorem lastCond_of_concrete (x : String) (c0 : Char)
    (he : x.data.getLast? = some c0) (hc0 : isPySpace c0 = false) :
    ∀ c, x.data.getLast? = some c → isPySpace c = false := by
  intro c hc
  rw [he] at hc
  exact (Option.some.inj hc) ▸ hc0

theorem isOptMarker_ex (t : List Char) : isOptMarker ⟨'e' :: 'x' :: t⟩ = false := by
  show isOptMarker ⟨'e' :: 'x' :: t⟩ = false
  cases t with
  | nil => decide
  | cons c3 t' =>
    simp only [isOptMarker]
    rw [show (('x' : Char) = ')' || ('x' : Char) = '.') = false from by decide]
    rw [show (decide (('e' : Char) = '(')) = false from by decide]
    simp

theorem isOptMarker_corr (t : List Char) :
    isOptMarker ⟨'C' :: 'o' :: t⟩ = false := by
  cases t with
  | nil => decide
  | cons c3 t' =>
    simp only [isOptMarker]
    rw [show (('o' : Char) = ')' || ('o' : Char) = '.') = false from by decide]
    rw [show (decide (('C' : Char) = '(')) = false from by decide]
    simp

theorem matchCorrectHead_ex (t : List Char) :
    matchCorrectHead ⟨'e' :: t⟩ = false := by
  simp only [matchCorrectHead]
  rw [show dropCI "correct".data ('e' :: t) = none from by
    simp [dropCI, show lowerCh 'e' = 'e' from by decide]]

theorem matchAnswerHead_ex (t : List Char) :
    matchAnswerHead ⟨'e' :: t⟩ = false := by
  simp only [matchAnswerHead]
  rw [show dropCI "answer".data ('e' :: t) = none from by
    simp [dropCI, show lowerCh 'e' = 'e' from by decide]]

theorem lineAnswerUpdate_ex (t : List Char) :
    lineAnswerUpdate ⟨'e' :: t⟩ = none := by
  simp only [lineAnswerUpdate, matchCorrectHead_ex, matchAnswerHead_ex]
  simp

theorem exline_strip_props (s : String) (hs : strip_html s ≠ "") :
    cleanLine ("ex: " ++ strip_html s) ∧
    isOptMarker ("ex: " ++ strip_html s) = false ∧
    isStop ("ex: " ++ strip_html s) = true ∧
    lineAnswerUpdate ("ex: " ++ strip_html s) = none := by
  have hlit : ("ex: " : String).data = ['e', 'x', ':', ' '] := by decide
  have hdata : ("ex: " ++ strip_html s).data =
      'e' :: 'x' :: (':' :: ' ' :: (strip_html s).data) := by
    rw [String.data_append, hlit]
    rfl
  have hmk : "ex: " ++ strip_html s =
      ⟨'e' :: 'x' :: (':' :: ' ' :: (strip_html s).data)⟩ :=
    congrArg String.mk hdata
  refine ⟨?_, ?_, ?_, ?_⟩
  · refine cleanLine_glue _ _ (by rw [hlit]; simp)
      (headCond_of_concrete _ 'e' (by rw [hlit]; rfl) (by decide))
      ?_ (data_ne_nil _ hs) (stripHtml_getLast_not_ws s) (stripHtml_no_nl s)
    intro c hc
    rw [hlit] at hc
    have : c = 'e' ∨ c = 'x' ∨ c = ':' ∨ c = ' ' := by simpa using hc
    rcases this with h | h | h | h <;> (subst h; decide)
  · rw [hmk]
    exact isOptMarker_ex _
  · show (startsCI "correct" _ || startsCI "answer:" _ || startsCI "ex:" _) = true
    have h3 : startsCI "ex:" ("ex: " ++ strip_html s) = true := by
      show startsWithCI "ex:".data ("ex: " ++ strip_html s).data = true
      rw [hdata]
      rw [show 'e' :: 'x' :: (':' :: ' ' :: (strip_html s).data) =
        ['e', 'x', ':', ' '] ++ (strip_html s).data from rfl]
      exact startsWithCI_append_left _ _ _ (by decide)
    rw [h3]
    simp
  · rw [hmk]
    exact lineAnswerUpdate_ex _

theorem exline_placeholder_props :
    cleanLine ("ex: No explanation provided." : String) ∧
    isOptMarker ("ex: No explanation provided." : String) = false ∧
    isStop ("ex: No explanation provided." : String) = true ∧
    lineAnswerUpdate ("ex: No explanation provided." : String) = none := by
  refine ⟨⟨by decide, by decide,
    headCond_of_concrete _ 'e' (by decide) (by decide),
    lastCond_of_concrete _ '.' (by decide) (by decide)⟩,
    by decide, by decide, by decide⟩

theorem ansline_props (d : String)
    (hd : d = "1" ∨ d = "2" ∨ d = "3" ∨ d = "4" ∨ d = "5") :
    cleanLine ("Correct option:-" ++ renderAnswerLetter d) ∧
    isOptMarker ("Correct option:-" ++ renderAnswerLetter d) = false ∧
    isStop ("Correct option:-" ++ renderAnswerLetter d) = true ∧
    lineAnswerUpdate ("Correct option:-" ++ renderAnswerLetter d) = some d := by
  rcases hd with h | h | h | h | h <;> subst h
  · rw [show "Correct option:-" ++ renderAnswerLetter "1" = "Correct option:-a"
      from by decide]
    exact ⟨⟨by decide, by decide,
      headCond_of_concrete _ 'C' (by decide) (by decide),
      lastCond_of_concrete _ 'a' (by decide) (by decide)⟩,
      by decide, by decide, by decide⟩
  · rw [show "Correct option:-" ++ renderAnswerLetter "2" = "Correct option:-b"
      from by decide]
    exact ⟨⟨by decide, by decide,
      headCond_of_concrete _ 'C' (by decide) (by decide),
      lastCond_of_concrete _ 'b' (by decide) (by decide)⟩,
      by decide, by decide, by decide⟩
  · rw [show "Correct option:-" ++ renderAnswerLetter "3" = "Correct option:-c"
      from by decide]
    exact ⟨⟨by decide, by decide,
      headCond_of_concrete _ 'C' (by decide) (by decide),
      lastCond_of_concrete _ 'c' (by decide) (by decide)⟩,
      by decide, by decide, by decide⟩
  · rw [show "Correct option:-" ++ renderAnswerLetter "4" = "Correct option:-d"
      from by decide]
    exact ⟨⟨by decide, by decide,
      headCond_of_concrete _ 'C' (by decide) (by decide),
      lastCond_of_concrete _ 'd' (by decide) (by decide)⟩,
      by decide, by decide, by decide⟩
  · rw [show "Correct option:-" ++ renderAnswerLetter "5" = "Correct option:-e"
      from by decide]
    exact ⟨⟨by decide, by decide,
      headCond_of_concrete _ 'C' (by decide) (by decide),
      lastCond_of_concrete _ 'e' (by decide) (by decide)⟩,
      by decide, by decide, by decide⟩

theorem parse_block_eval (b : String) (hb : pyStrip b = b) (hbne : b ≠ "")
    (hlen : ¬ (blockLines b).length < 3)
    (hq : (buildBlockQuestion (blockLines b)).question ≠ "" ∧
      ((buildBlockQuestion (blockLines b)).option_1 ≠ "" ∨
        (buildBlockQuestion (blockLines b)).option_2 ≠ "")) :
    parse_block b = some (buildBlockQuestion (blockLines b)) := by
  unfold parse_block
  rw [hb]
  rw [if_neg hbne, if_neg hlen, if_pos hq]

theorem reparse_block (idx : Nat) (q : Question) (hwf : wellFormedQ q = true) :
    ∃ q', parse_block (renderBlock idx q) = some q' ∧ q'.answer = q.answer := by
  obtain ⟨hQ, h1, hstrips, ha⟩ := wellFormedQ_parts q hwf
  obtain ⟨hclean0, hheader, hstrip0⟩ :=
    numline_facts idx (strip_html q.question) hQ
      (stripHtml_head_not_ws q.question) (stripHtml_no_nl q.question)
      (stripHtml_getLast_not_ws q.question)
  have hoptfacts := renderOptLines_facts q hwf
  have hro : renderOptLines q =
      (slotLetter 1 ++ ") " ++ strip_html q.option_1) ::
        ([(2, q.option_2), (3, q.option_3), (4, q.option_4),
          (5, q.option_5)].filterMap fun p =>
            if p.2 ≠ "" then some (slotLetter p.1 ++ ") " ++ strip_html p.2)
            else none) := by
    simp only [renderOptLines, List.filterMap_cons, h1, ne_eq,
      not_false_eq_true, if_true, if_pos]
  obtain ⟨exl, hexdef, hexclean, hexopt, hexstop, hexupd⟩ :
      ∃ exl, (if strip_html q.solution_text ≠ ""
          then "ex: " ++ strip_html q.solution_text
          else "ex: No explanation provided.") = exl ∧
        cleanLine exl ∧ isOptMarker exl = false ∧ isStop exl = true ∧
        lineAnswerUpdate exl = none := by
    by_cases hE : strip_html q.solution_text ≠ ""
    · obtain ⟨a, b, c, d⟩ := exline_strip_props q.solution_text hE
      exact ⟨_, if_pos hE, a, b, c, d⟩
    · obtain ⟨a, b, c, d⟩ := exline_placeholder_props
      exact ⟨_, if_neg hE, a, b, c, d⟩
  obtain ⟨ansPart, hapdef, hapclean, haploop, hapscan⟩ :
      ∃ ansPart : List String,
        (if q.answer ≠ ""
          then ["Correct option:-" ++ renderAnswerLetter q.answer]
          else []) = ansPart ∧
        (∀ x ∈ ansPart, cleanLine x) ∧
        optionsLoop (renderOptLines q ++ (ansPart ++ [exl])) 5 =
          (renderOptLines q, ansPart ++ [exl]) ∧
        scanAnswer (ansPart ++ [exl]) "" = q.answer := by
    have hlenopt : (renderOptLines q).length ≤ 5 := by
      simp only [renderOptLines]
      exact le_trans (List.length_filterMap_le _ _) (by simp)
    have hallopt : ∀ l ∈ renderOptLines q, isOptMarker l = true :=
      fun l hl => (hoptfacts l hl).2
    rcases ha with h0 | hd
    · refine ⟨[], by rw [h0]; simp, by simp, ?_, ?_⟩
      · simp only [List.nil_append]
        exact optionsLoop_run (renderOptLines q) 5 exl [] hlenopt hallopt
          hexopt hexstop
      · simp only [List.nil_append, h0]
        exact scanAnswer_no_capture [exl] (by simpa using hexupd) ""
    · have hdne : q.answer ≠ "" := by
        rcases hd with h | h | h | h | h <;> simp [h]
      obtain ⟨hac, hao, has, hau⟩ := ansline_props q.answer hd
      refine ⟨["Correct option:-" ++ renderAnswerLetter q.answer],
        if_pos hdne, by simpa using hac, ?_, ?_⟩
      · simp only [List.cons_append, List.nil_append]
        exact optionsLoop_run (renderOptLines q) 5 _ [exl] hlenopt hallopt
          hao has
      · simp only [List.cons_append, List.nil_append]
        have hstep : scanAnswer
            (("Correct option:-" ++ renderAnswerLetter q.answer) :: [exl]) "" =
            scanAnswer [exl]
              ((lineAnswerUpdate
                ("Correct option:-" ++ renderAnswerLetter q.answer)).getD "") :=
          rfl
        rw [hstep, hau, Option.getD_some]
        exact scanAnswer_no_capture [exl] (by simpa using hexupd) q.answer
  have hlines : renderQLines idx q =
      (toString idx ++ ". " ++ strip_html q.question) ::
        (renderOptLines q ++ (ansPart ++ [exl])) := by
    unfold renderQLines
    rw [hapdef, hexdef, List.append_assoc, List.cons_append]
  have hcleanAll : ∀ x ∈ renderQLines idx q, cleanLine x := by
    intro x hx
    rw [hlines] at hx
    rcases List.mem_cons.mp hx with h | h
    · exact h ▸ hclean0
    · rcases List.mem_append.mp h with h2 | h2
      · exact (hoptfacts x h2).1
      · rcases List.mem_append.mp h2 with h3 | h3
        · exact hapclean x h3
        · exact (List.mem_singleton.mp h3) ▸ hexclean
  obtain ⟨hps, hjne, hbl⟩ :=
    blockLines_joinNl (renderQLines idx q) (by rw [hlines]; simp) hcleanAll
  have hline1opt : isOptMarker (slotLetter 1 ++ ") " ++ strip_html q.option_1) =
      true := by
    refine (hoptfacts _ ?_).2
    rw [hro]
    simp
  have hqsplit : questionSplit (renderQLines idx q) =
      ([strip_html q.question], renderOptLines q ++ (ansPart ++ [exl])) := by
    rw [hlines, hro, List.cons_append]
    rw [questionSplit_header _ _ _ hheader hline1opt, hstrip0]
  have hbuild : buildBlockQuestion (renderQLines idx q) =
      buildBlockQuestion (renderQLines idx q) := rfl
  have hbq_question : (buildBlockQuestion (renderQLines idx q)).question =
      strip_html q.question := by
    show joinBr (questionSplit (renderQLines idx q)).1 = _
    rw [hqsplit]
    rfl
  have hbq_opt1 : (buildBlockQuestion (renderQLines idx q)).option_1 =
      slotLetter 1 ++ ") " ++ strip_html q.option_1 := by
    show ((optionsLoop (questionSplit (renderQLines idx q)).2 5).1).getD 0 "" = _
    rw [hqsplit]
    show ((optionsLoop (renderOptLines q ++ (ansPart ++ [exl])) 5).1).getD 0 "" = _
    rw [haploop]
    rw [hro]
    rfl
  have hbq_answer : (buildBlockQuestion (renderQLines idx q)).answer =
      q.answer := by
    show scanAnswer (optionsLoop (questionSplit (renderQLines idx q)).2 5).2 "" = _
    rw [hqsplit]
    show scanAnswer (optionsLoop (renderOptLines q ++ (ansPart ++ [exl])) 5).2 "" = _
    rw [haploop]
    exact hapscan
  have hlen3 : ¬ (blockLines (joinNl (renderQLines idx q))).length < 3 := by
    rw [hbl, hlines, hro]
    simp only [List.length_cons, List.length_append, Nat.not_lt]
    omega
  have hopt1ne : slotLetter 1 ++ ") " ++ strip_html q.option_1 ≠ "" := by
    have := hstrips 1 q.option_1 (Or.inl ⟨rfl, rfl⟩) h1
    intro hc
    have hd := congrArg String.data hc
    rw [String.data_append] at hd
    simp only [List.append_eq_nil] at hd
    exact data_ne_nil _ this hd.2
  refine ⟨buildBlockQuestion (renderQLines idx q), ?_, hbq_answer⟩
  have heval := parse_block_eval (joinNl (renderQLines idx q)) hps hjne hlen3 ?_
  · show parse_block (renderBlock idx q) = _
    show parse_block (joinNl (renderQLines idx q)) = _
    rw [heval, hbl]
  · rw [hbl]
    refine ⟨by rw [hbq_question]; exact hQ, Or.inl ?_⟩
    rw [hbq_opt1]
    exact hopt1ne

theorem parse_block_none (b : String) (h : pyStrip b = "") :
    parse_block b = none := by
  simp [parse_block, h]

theorem filterMap_skip_none {α β : Type} (f : α → Option β) (p : α → Bool)
    (l : List α) (h : ∀ b ∈ l, p b = false → f b = none) :
    (l.filter p).filterMap f = l.filterMap f := by
  induction l with
  | nil => rfl
  | cons a l ih =>
    have ih2 := ih fun b hb => h b (List.mem_cons_of_mem a hb)
    rw [List.filter_cons]
    by_cases hp : p a = true
    · rw [if_pos hp, List.filterMap_cons, List.filterMap_cons]
      cases f a <;> simp [ih2]
    · have hpa : p a = false := by revert hp; cases p a <;> simp
      rw [if_neg (by simp [hpa]), List.filterMap_cons,
        h a (List.mem_cons_self a l) hpa]
      exact ih2

theorem reparse_list (ps : List (Nat × Question))
    (h : ∀ p ∈ ps, wellFormedQ p.2 = true) :
    ((ps.map fun p => renderBlock (p.1 + 1) p.2).filterMap parse_block).map
        Question.answer = ps.map fun p => p.2.answer := by
  induction ps with
  | nil => rfl
  | cons p ps ih =>
    obtain ⟨q', hq', hans⟩ :=
      reparse_block (p.1 + 1) p.2 (h p (List.mem_cons_self p ps))
    rw [List.map_cons, List.filterMap_cons, hq', List.map_cons, List.map_cons,
      hans]
    exact congrArg (List.cons p.2.answer)
      (ih fun b hb => h b (List.mem_cons_of_mem p hb))

/-- Claim C2, amended: if the list of questions parsed from a text file is
round-trip well formed (each retained question satisfies `wellFormedQ`, and
the serialized text re-segments into exactly the rendered blocks), then
re-parsing the serialized output yields the same list of answer values, in
order.  The full record is not reproduced: option texts gain a second
letter marker on each round trip (see the counterexample). -/
theorem C2_amended (t : String)
    (h : wellFormedRT (parse_txt_file t) = true) :
    (parse_txt_file (questions_to_txt (parse_txt_file t))).map Question.answer
      = (parse_txt_file t).map Question.answer := by
  rw [wellFormedRT, Bool.and_eq_true] at h
  obtain ⟨hall, hseg⟩ := h
  have hsegeq : (pySplitQ (pyStrip (questions_to_txt (parse_txt_file t)))).filter
      (fun b => !(pyStrip b = "")) =
      (parse_txt_file t).enum.map fun p => renderBlock (p.1 + 1) p.2 :=
    eq_of_beq hseg
  have hwfmem : ∀ q ∈ parse_txt_file t, wellFormedQ q = true := by
    simpa [List.all_eq_true] using hall
  have hnone : ∀ b ∈ pySplitQ (pyStrip (questions_to_txt (parse_txt_file t))),
      (fun b => !(pyStrip b = "")) b = false → parse_block b = none := by
    intro b _ hb
    exact parse_block_none b (by simpa using hb)
  calc (parse_txt_file (questions_to_txt (parse_txt_file t))).map Question.answer
      = (((pySplitQ (pyStrip (questions_to_txt (parse_txt_file t)))).filter
          (fun b => !(pyStrip b = ""))).filterMap parse_block).map
            Question.answer := by
        rw [parse_txt_file, filterMap_skip_none parse_block _ _ hnone]
    _ = (((parse_txt_file t).enum.map
          fun p => renderBlock (p.1 + 1) p.2).filterMap parse_block).map
            Question.answer := by
        rw [hsegeq]
    _ = (parse_txt_file t).enum.map (fun p => p.2.answer) :=
        reparse_list _ fun p hp => hwfmem p.2 (List.snd_mem_of_mem_enum hp)
    _ = (parse_txt_file t).map Question.answer := by
        rw [show (fun p : Nat × Question => p.2.answer) =
            Question.answer ∘ Prod.snd from rfl,
          ← List.map_map, List.enum_map_snd]

/-- Witness for C2_amended: the concrete example input is round-trip well
formed, and re-parsing its serialized output reproduces the answer list. -/
theorem C2_amended_witness :
    wellFormedRT (parse_txt_file c2input) = true ∧
    (parse_txt_file (questions_to_txt (parse_txt_file c2input))).map
        Question.answer = (parse_txt_file c2input).map Question.answer :=
  ⟨by decide, C2_amended c2input (by decide)⟩

end QuizApp
